import Mathlib

/-!
Shallow embedding of the dungeon generator in `src/Digger/digger3.cpp`
(the "dig orchestration engine"): the tile state machine, the 2D grid,
the room and corridor generators, and the worklist-driven dig loop.

Conventions of the embedding:
* machine `int` becomes `Int`;
* the global mutable state of the C program (the `grid` array, the
  `doorways` vector, the `rand()` stream) becomes an explicit `DigState`
  record threaded through every operation;
* `rand()` is modelled as an oracle stream `Nat → Nat` of the successive
  nonnegative values returned by the C library; `rand_range` consumes one
  value exactly as `rand() % (Max-Min+1) + Min` does;
* an out-of-bounds grid access (undefined behaviour in C) is recorded by
  setting the `oob` flag of the state; the functional update of the total
  grid function is still performed so that every run stays well defined;
* the unbounded `while(doorways.size() > 0)` loop of `dig_loop` is run on
  explicit fuel `size_x * size_y + 1`; the termination theorem proves this
  fuel always drains the worklist, so the fueled function agrees with the
  C loop.
-/

namespace Digger

/-- Tile states of one grid cell, from the `enum` in digger3.cpp. -/
inductive Tile where
  | unknown
  | floor
  | wall
  | permawall
  | door
deriving DecidableEq

/-- Integer 2D vector, used both as a position and as a direction
(class `Vector` in digger3.cpp). -/
structure Vector where
  x : Int
  y : Int
deriving DecidableEq

instance : Add Vector := ⟨fun a b => ⟨a.x + b.x, a.y + b.y⟩⟩

instance : Sub Vector := ⟨fun a b => ⟨a.x - b.x, a.y - b.y⟩⟩

/-- Scalar multiplication `vector * int` of digger3.cpp. -/
instance : HMul Vector Int Vector := ⟨fun v n => ⟨v.x * n, v.y * n⟩⟩

/-- Rotation 90 degrees counter-clockwise: `Vector(y, -x)` in the source. -/
def Vector.left (v : Vector) : Vector := ⟨v.y, -v.x⟩

/-- Rotation 90 degrees clockwise: `Vector(-y, x)` in the source. -/
def Vector.right (v : Vector) : Vector := ⟨-v.y, v.x⟩

theorem Vector.add_def (a b : Vector) : a + b = ⟨a.x + b.x, a.y + b.y⟩ := rfl

theorem Vector.sub_def (a b : Vector) : a - b = ⟨a.x - b.x, a.y - b.y⟩ := rfl

theorem Vector.mul_def (v : Vector) (n : Int) : v * n = ⟨v.x * n, v.y * n⟩ := rfl

theorem Vector.ext_iff2 (a b : Vector) : a = b ↔ a.x = b.x ∧ a.y = b.y := by
  constructor
  · rintro rfl; exact ⟨rfl, rfl⟩
  · rintro ⟨hx, hy⟩; cases a; cases b; simp_all

@[simp] theorem Vector.mul_zero_vec (v : Vector) : v * (0 : Int) = ⟨0, 0⟩ := by
  rw [Vector.ext_iff2]; constructor <;> simp [Vector.mul_def]

@[simp] theorem Vector.add_zero_vec (v : Vector) : v + (⟨0, 0⟩ : Vector) = v := by
  rw [Vector.ext_iff2]; constructor <;> simp [Vector.add_def]

/-- Pending growth point record (class `Doorway` in digger3.cpp). -/
structure Doorway where
  location : Vector
  heading : Vector
  has_door : Bool
deriving DecidableEq

/-- The whole mutable state of the generator: the globals `size_x`,
`size_y`, `grid`, `doorways`, plus the modelled `rand()` stream and the
out-of-bounds access flag. -/
structure DigState where
  size_x : Int
  size_y : Int
  grid : Vector → Tile
  doorways : List Doorway
  rng : Nat → Nat
  oob : Bool

/-- Initial state: `init_map` fills every cell with `TILE_UNKNOWN`, the
doorway vector starts empty. -/
def init_state (w h : Int) (rng : Nat → Nat) : DigState :=
  { size_x := w
    size_y := h
    grid := fun _ => Tile.unknown
    doorways := []
    rng := rng
    oob := false }

/-- Draw one value from the rand() stream. -/
def randNext (s : DigState) : Nat × DigState :=
  (s.rng 0, { s with rng := fun n => s.rng (n + 1) })

/-- Model of `rand_range(Min, Max)`: `rand() % (Max-Min+1) + Min`. -/
def rand_range (mn mx : Int) (s : DigState) : Int × DigState :=
  let (r, s1) := randNext s
  (Int.ofNat (r % (mx - mn + 1).toNat) + mn, s1)

/-- Model of `doorways.push_back(d)`. -/
def push_doorway (s : DigState) (d : Doorway) : DigState :=
  { s with doorways := s.doorways ++ [d] }

/-- Strict interior bounds test `is_in_bounds` of digger3.cpp. -/
def is_in_bounds (s : DigState) (v : Vector) : Prop :=
  1 ≤ v.x ∧ 1 ≤ v.y ∧ v.x < s.size_x - 1 ∧ v.y < s.size_y - 1

instance (s : DigState) (v : Vector) : Decidable (is_in_bounds s v) := by
  unfold is_in_bounds; infer_instance

/-- Bounds test `is_in_bounds_or_border` of digger3.cpp: the whole grid
`[0,width) × [0,height)`. -/
def is_in_bounds_or_border (s : DigState) (v : Vector) : Prop :=
  0 ≤ v.x ∧ 0 ≤ v.y ∧ v.x < s.size_x ∧ v.y < s.size_y

instance (s : DigState) (v : Vector) : Decidable (is_in_bounds_or_border s v) := by
  unfold is_in_bounds_or_border; infer_instance

/-- Record a grid access at `v`: a C access `grid[v.y][v.x]` outside the
allocated `[0,width) × [0,height)` region is undefined behaviour; the model
latches it into the `oob` flag. -/
def markAccess (s : DigState) (v : Vector) : DigState :=
  if is_in_bounds_or_border s v then s else { s with oob := true }

/-- Tile test of `is_wall`: `TILE_WALL`, `TILE_UNKNOWN` or `TILE_PERMAWALL`
("wall-like", diggable). -/
def wallLike : Tile → Bool
  | Tile.wall => true
  | Tile.unknown => true
  | Tile.permawall => true
  | _ => false

/-- Grid read `is_wall` of digger3.cpp (a read access to `grid[v.y][v.x]`). -/
def is_wall (s : DigState) (v : Vector) : Bool × DigState :=
  (wallLike (s.grid v), markAccess s v)

/-- Grid read `is_permawall` of digger3.cpp. -/
def is_permawall (s : DigState) (v : Vector) : Bool × DigState :=
  (s.grid v = Tile.permawall, markAccess s v)

/-- Grid read `is_known` of digger3.cpp. -/
def is_known (s : DigState) (v : Vector) : Bool × DigState :=
  (s.grid v ≠ Tile.unknown, markAccess s v)

/-- Grid read `is_floor` of digger3.cpp. -/
def is_floor (s : DigState) (v : Vector) : Bool × DigState :=
  (s.grid v = Tile.floor, markAccess s v)

/-- Pointwise functional update of the grid. -/
def setTile (g : Vector → Tile) (v : Vector) (t : Tile) : Vector → Tile :=
  fun u => if u = v then t else g u

/-- Grid write helper shared by the four tile mutators. -/
def writeTile (s : DigState) (v : Vector) (t : Tile) : DigState :=
  let s1 := markAccess s v
  { s1 with grid := setTile s1.grid v t }

/-- Mutator `dig_tile`: set the cell to `TILE_FLOOR`. -/
def dig_tile (s : DigState) (v : Vector) : DigState := writeTile s v Tile.floor

/-- Mutator `door_tile`: set the cell to `TILE_DOOR`. -/
def door_tile (s : DigState) (v : Vector) : DigState := writeTile s v Tile.door

/-- Mutator `fill_tile`: set the cell to `TILE_WALL`. -/
def fill_tile (s : DigState) (v : Vector) : DigState := writeTile s v Tile.wall

/-- Mutator `permawall_tile`: set the cell to `TILE_PERMAWALL`. -/
def permawall_tile (s : DigState) (v : Vector) : DigState :=
  writeTile s v Tile.permawall

/-! ### Room generator (`dig_room`)

The C code walks a mutable cursor over the `(size.x+2) × (size.y+2)`
footprint rectangle, stepping by `heading.right()` inside a row and by
`heading` between rows; the cell visited at step `(xi, yi)` is therefore
`corner + heading.right()*xi + heading*yi`.  The loops are embedded as
structural recursion over the row-major list of `(xi, yi)` index pairs. -/

/-- Row-major enumeration of the `(xi, yi)` index pairs of an `nx × ny`
rectangle, in the visit order of the nested C loops (`yi` outer). -/
def rowMajor (nx ny : Nat) : List (Nat × Nat) :=
  (List.range ny).flatMap (fun yi => (List.range nx).map (fun xi => (xi, yi)))

/-- Footprint cell visited at index pair `(xi, yi)`. -/
def roomCell (corner hd : Vector) (c : Nat × Nat) : Vector :=
  corner + hd.right * (c.1 : Int) + hd * (c.2 : Int)

/-- Feasibility scan of `dig_room` ("Check the area to see if any of it has
already been dug"): visit each footprint cell in row-major order and return
`0` at the first cell that is out of `is_in_bounds_or_border` or that is
neither wall-like nor the entrance. -/
def dig_room_scan (entrance corner hd : Vector) :
    List (Nat × Nat) → DigState → Bool × DigState
  | [], s => (true, s)
  | c :: rest, s =>
    let pos := roomCell corner hd c
    if ¬ is_in_bounds_or_border s pos then (false, s)
    else
      let (w, s1) := is_wall s pos
      if ¬ w ∧ pos ≠ entrance then (false, s1)
      else dig_room_scan entrance corner hd rest s1

/-- Commit phase 1 of `dig_room` ("Fill the whole area with rock"):
`fill_tile` over every footprint cell in row-major order. -/
def dig_room_fill (corner hd : Vector) :
    List (Nat × Nat) → DigState → DigState
  | [], s => s
  | c :: rest, s => dig_room_fill corner hd rest (fill_tile s (roomCell corner hd c))

/-- Commit phase 3 of `dig_room` ("Dig out the inside"): `dig_tile` over the
interior `size.x × size.y` rectangle, whose cell at index `(xi, yi)` is
`corner + heading + heading.right() + heading.right()*xi + heading*yi`. -/
def dig_room_carve (corner hd : Vector) :
    List (Nat × Nat) → DigState → DigState
  | [], s => s
  | c :: rest, s =>
    dig_room_carve corner hd rest
      (dig_tile s (corner + hd + hd.right + hd.right * (c.1 : Int) + hd * (c.2 : Int)))

/-- Commit phases of `dig_room` after a successful scan: fill the footprint
with rock, turn the four corners into permawall, dig out the inside, and
make the entrance a door. -/
def dig_room_commit (s : DigState) (entrance corner hd : Vector) (sx sy : Int) :
    DigState :=
  let s1 := dig_room_fill corner hd (rowMajor (sx + 2).toNat (sy + 2).toNat) s
  let s2 := permawall_tile s1 corner
  let s3 := permawall_tile s2 (corner + hd.right * (sx + 1))
  let s4 := permawall_tile s3 (corner + hd * (sy + 1))
  let s5 := permawall_tile s4 (corner + hd.right * (sx + 1) + hd * (sy + 1))
  let s6 := dig_room_carve corner hd (rowMajor sx.toNat sy.toNat) s5
  door_tile s6 entrance

/-- Growth-point proposals of `dig_room`: one doorway on the left wall, one
on the opposite wall, one on the right wall, each pushed onto the global
`doorways` vector right after its random offset is drawn. -/
def dig_room_pushes (s : DigState) (corner hd : Vector) (sx sy : Int) : DigState :=
  let (r1, s1) := rand_range 1 sy s
  let s2 := push_doorway s1 ⟨corner + hd * r1, hd.left, true⟩
  let (c1, s3) := rand_range 1 sx s2
  let s4 := push_doorway s3 ⟨corner + hd * (sy + 1) + hd.right * c1, hd, true⟩
  let (r2, s5) := rand_range 1 sy s4
  push_doorway s5 ⟨corner + hd.right * (sx + 1) + hd * r2, hd.right, true⟩

/-- Body of `dig_room` after the three random draws `size.x`, `size.y` and
`entrance_offset`: scan the footprint and on success commit the tiles and
push the three wall-connection doorways. -/
def dig_room_body (s : DigState) (entrance heading : Vector) (sx sy eo : Int) :
    Bool × DigState :=
  let corner := entrance + heading.left * eo
  let (ok, s4) := dig_room_scan entrance corner heading
    (rowMajor (sx + 2).toNat (sy + 2).toNat) s
  if ¬ ok then (false, s4)
  else
    let s5 := dig_room_commit s4 entrance corner heading sx sy
    (true, dig_room_pushes s5 corner heading sx sy)

/-- Room generator `dig_room` of digger3.cpp: draw the interior size and the
entrance offset, then run the scan-and-commit body. -/
def dig_room (s : DigState) (entrance heading : Vector) : Bool × DigState :=
  let (sx, s1) := rand_range 3 6 s
  let (sy, s2) := rand_range 3 6 s1
  let (eo, s3) := rand_range 1 sx s2
  dig_room_body s3 entrance heading sx sy eo

/-! ### Corridor generator (`dig_corridor`) -/

/-- Feasibility walk of `dig_corridor` ("Check that the corridor doesn't
intersect something in a bad way").  At step counter `ii` the cursor sits at
`e + hd*(ii+1)` with flank cells one `hd.left`/`hd.right` step aside.
Returns `none` for the hard failures (`return 0` in the C loop), and
`some (length, found_intersect)` otherwise: `some (ii, true)` when a
non-wall-like center cell truncates the walk at `ii` steps, and
`some (ii, false)` when all steps complete with `ii` the original length. -/
def corridor_scan (e hd : Vector) :
    Nat → Nat → DigState → Option (Nat × Bool) × DigState
  | ii, 0, s => (some (ii, false), s)
  | ii, r + 1, s =>
    let pos := e + hd * ((ii : Int) + 1)
    if ¬ is_in_bounds s pos then (none, s)
    else
      let (w, s1) := is_wall s pos
      if ¬ w then (some (ii, true), s1)
      else
        let (wl, s2) := is_wall s1 (pos + hd.left)
        if ¬ wl then (none, s2)
        else
          let (wr, s3) := is_wall s2 (pos + hd.right)
          if ¬ wr then (none, s3)
          else
            let (pw, s4) := is_permawall s3 pos
            if pw then (none, s4)
            else corridor_scan e hd (ii + 1) r s4

/-- Commit walk of `dig_corridor` ("Dig the corridor"): starting one step
ahead of `pos`, dig the center cell to floor and fill the two flank cells,
then stop early if the cell one further step ahead is out of bounds or not
wall-like.  Returns the final cursor position together with the state. -/
def corridor_dig (hd : Vector) :
    Vector → Nat → DigState → Vector × DigState
  | pos, 0, s => (pos, s)
  | pos, r + 1, s =>
    let p := pos + hd
    let s1 := dig_tile s p
    let s2 := fill_tile s1 (p + hd.left)
    let s3 := fill_tile s2 (p + hd.right)
    if ¬ is_in_bounds s3 (p + hd) then (p, s3)
    else
      let (w, s4) := is_wall s3 (p + hd)
      if ¬ w then (p, s4)
      else corridor_dig hd p r s4

/-- Body of `dig_corridor` after the length draw: run the feasibility walk,
reject truncated lengths `≤ 1` and walks without an intersection, then dig
the corridor and finish its far end: seal it back to wall and push a
doorway with `has_door = false` when the cell beyond is out of bounds or
wall-like, else make it a door. -/
def dig_corridor_body (s : DigState) (entrance heading : Vector) (len : Int) :
    Bool × DigState :=
  let (res, s2) := corridor_scan entrance heading 0 len.toNat s
  match res with
  | none => (false, s2)
  | some (k, found) =>
    if k ≤ 1 then (false, s2)
    else if ¬ found then (false, s2)
    else
      let (pos, s3) := corridor_dig heading entrance k s2
      if ¬ is_in_bounds s3 (pos + heading) then
        let s4 := fill_tile s3 pos
        (true, push_doorway s4 ⟨pos, heading, false⟩)
      else
        let (w, s4) := is_wall s3 (pos + heading)
        if w then
          let s5 := fill_tile s4 pos
          (true, push_doorway s5 ⟨pos, heading, false⟩)
        else (true, door_tile s4 pos)

/-- Corridor generator `dig_corridor` of digger3.cpp: draw a length in
`[2,6]`, then run the scan-and-commit body. -/
def dig_corridor (s : DigState) (entrance heading : Vector) : Bool × DigState :=
  let (len, s1) := rand_range 2 6 s
  dig_corridor_body s1 entrance heading len

/-! ### Dig orchestrator (`dig_random`, `dig_loop`) -/

/-- Bounded retry `dig_random` of digger3.cpp: up to `max_tries = 5`
attempts, each drawing `rand_range(0,1)` to pick the room (`0`, also the
`default` label) or corridor (`1`) generator, stopping at the first
success. -/
def dig_random_go (pos heading : Vector) : Nat → DigState → Bool × DigState
  | 0, s => (false, s)
  | t + 1, s =>
    let (c, s1) := rand_range 0 1 s
    let (succ, s2) :=
      if c = 1 then dig_corridor s1 pos heading else dig_room s1 pos heading
    if succ then (true, s2) else dig_random_go pos heading t s2

/-- The `max_tries` constant of digger3.cpp. -/
def max_tries : Nat := 5

def dig_random (s : DigState) (pos heading : Vector) : Bool × DigState :=
  dig_random_go pos heading max_tries s

/-- Seeding step of `dig_loop` (everything before the `while`): push the
initial entrance doorway at `(size_x/2, size_y-1)` heading `(0,-1)`, make
the entrance a door and fill its two lateral neighbors. -/
def dig_seed (s : DigState) : DigState :=
  let entrance : Vector := ⟨s.size_x / 2, s.size_y - 1⟩
  let s1 := push_doorway s ⟨entrance, ⟨0, -1⟩, true⟩
  let s2 := door_tile s1 entrance
  let s3 := fill_tile s2 (entrance + ⟨1, 0⟩)
  fill_tile s3 (entrance - ⟨1, 0⟩)

/-- One iteration of the drain loop of `dig_loop`: pop the doorway at a
uniformly random index, attempt growth there, and on success finalize the
origin cell according to `has_door`. -/
def dig_iter (s : DigState) : DigState :=
  let (which, s1) := rand_range 0 ((s.doorways.length : Int) - 1) s
  let d := s1.doorways.getD which.toNat ⟨⟨0, 0⟩, ⟨0, 0⟩, false⟩
  let s2 := { s1 with doorways := s1.doorways.eraseIdx which.toNat }
  let (succ, s3) := dig_random s2 d.location d.heading
  if succ then
    if d.has_door then door_tile s3 d.location
    else
      let (w, s4) := is_wall s3 d.location
      if w then dig_tile s4 d.location else s4
  else s3

/-- The drain loop of `dig_loop`, run on explicit fuel: iterate `dig_iter`
while the worklist is nonempty. -/
def dig_drain : Nat → DigState → DigState
  | 0, s => s
  | n + 1, s => if s.doorways = [] then s else dig_drain n (dig_iter s)

/-- Fuel sufficient to drain the worklist: one plus the number of grid
cells (the termination theorem proves the measure `doorway count + number
of wall-like in-grid cells`, which starts below this bound, strictly
decreases on every iteration). -/
def drainFuel (s : DigState) : Nat :=
  s.size_x.toNat * s.size_y.toNat + 1

/-- Whole generation run `dig_loop` of digger3.cpp: seeding followed by the
drain loop. -/
def dig_loop (s : DigState) : DigState :=
  dig_drain (drainFuel s) (dig_seed s)

/-! ### The four cardinal directions -/

/-- The four cardinal unit vectors; every heading the orchestrator ever
passes to a generator is one of these. -/
def Cardinal (v : Vector) : Prop :=
  v = ⟨0, -1⟩ ∨ v = ⟨0, 1⟩ ∨ v = ⟨-1, 0⟩ ∨ v = ⟨1, 0⟩

instance (v : Vector) : Decidable (Cardinal v) := by
  unfold Cardinal; infer_instance

/-! ## Basic state lemmas -/

@[simp] theorem markAccess_grid (s : DigState) (v : Vector) :
    (markAccess s v).grid = s.grid := by
  unfold markAccess; split <;> rfl

@[simp] theorem markAccess_doorways (s : DigState) (v : Vector) :
    (markAccess s v).doorways = s.doorways := by
  unfold markAccess; split <;> rfl

@[simp] theorem markAccess_rng (s : DigState) (v : Vector) :
    (markAccess s v).rng = s.rng := by
  unfold markAccess; split <;> rfl

@[simp] theorem markAccess_size_x (s : DigState) (v : Vector) :
    (markAccess s v).size_x = s.size_x := by
  unfold markAccess; split <;> rfl

@[simp] theorem markAccess_size_y (s : DigState) (v : Vector) :
    (markAccess s v).size_y = s.size_y := by
  unfold markAccess; split <;> rfl

theorem markAccess_oob (s : DigState) (v : Vector) :
    (markAccess s v).oob = if is_in_bounds_or_border s v then s.oob else true := by
  unfold markAccess; split <;> rfl

theorem markAccess_of_inb {s : DigState} {v : Vector}
    (h : is_in_bounds_or_border s v) : markAccess s v = s := by
  unfold markAccess; simp [h]

/-- Bounds predicates only look at the grid dimensions. -/
theorem inb_congr {s s' : DigState} (hx : s'.size_x = s.size_x)
    (hy : s'.size_y = s.size_y) (v : Vector) :
    is_in_bounds_or_border s' v ↔ is_in_bounds_or_border s v := by
  unfold is_in_bounds_or_border; rw [hx, hy]

theorem in_bounds_congr {s s' : DigState} (hx : s'.size_x = s.size_x)
    (hy : s'.size_y = s.size_y) (v : Vector) :
    is_in_bounds s' v ↔ is_in_bounds s v := by
  unfold is_in_bounds; rw [hx, hy]

/-- Strict interior cells are in the grid. -/
theorem inb_of_in_bounds {s : DigState} {v : Vector} (h : is_in_bounds s v) :
    is_in_bounds_or_border s v := by
  obtain ⟨h1, h2, h3, h4⟩ := h
  exact ⟨by omega, by omega, by omega, by omega⟩

@[simp] theorem setTile_same (g : Vector → Tile) (v : Vector) (t : Tile) :
    setTile g v t v = t := by simp [setTile]

theorem setTile_ne (g : Vector → Tile) {u v : Vector} (t : Tile) (h : u ≠ v) :
    setTile g v t u = g u := by simp [setTile, h]

theorem setTile_eval (g : Vector → Tile) (v u : Vector) (t : Tile) :
    setTile g v t u = if u = v then t else g u := rfl

@[simp] theorem writeTile_grid (s : DigState) (v : Vector) (t : Tile) :
    (writeTile s v t).grid = setTile s.grid v t := by
  simp [writeTile]

@[simp] theorem writeTile_doorways (s : DigState) (v : Vector) (t : Tile) :
    (writeTile s v t).doorways = s.doorways := by simp [writeTile]

@[simp] theorem writeTile_rng (s : DigState) (v : Vector) (t : Tile) :
    (writeTile s v t).rng = s.rng := by simp [writeTile]

@[simp] theorem writeTile_size_x (s : DigState) (v : Vector) (t : Tile) :
    (writeTile s v t).size_x = s.size_x := by simp [writeTile]

@[simp] theorem writeTile_size_y (s : DigState) (v : Vector) (t : Tile) :
    (writeTile s v t).size_y = s.size_y := by simp [writeTile]

theorem writeTile_oob (s : DigState) (v : Vector) (t : Tile) :
    (writeTile s v t).oob = (markAccess s v).oob := by simp [writeTile]

@[simp] theorem dig_tile_grid (s : DigState) (v : Vector) :
    (dig_tile s v).grid = setTile s.grid v Tile.floor := by simp [dig_tile]

@[simp] theorem dig_tile_doorways (s : DigState) (v : Vector) :
    (dig_tile s v).doorways = s.doorways := by simp [dig_tile]

@[simp] theorem dig_tile_rng (s : DigState) (v : Vector) :
    (dig_tile s v).rng = s.rng := by simp [dig_tile]

@[simp] theorem dig_tile_size_x (s : DigState) (v : Vector) :
    (dig_tile s v).size_x = s.size_x := by simp [dig_tile]

@[simp] theorem dig_tile_size_y (s : DigState) (v : Vector) :
    (dig_tile s v).size_y = s.size_y := by simp [dig_tile]

@[simp] theorem door_tile_grid (s : DigState) (v : Vector) :
    (door_tile s v).grid = setTile s.grid v Tile.door := by simp [door_tile]

@[simp] theorem door_tile_doorways (s : DigState) (v : Vector) :
    (door_tile s v).doorways = s.doorways := by simp [door_tile]

@[simp] theorem door_tile_rng (s : DigState) (v : Vector) :
    (door_tile s v).rng = s.rng := by simp [door_tile]

@[simp] theorem door_tile_size_x (s : DigState) (v : Vector) :
    (door_tile s v).size_x = s.size_x := by simp [door_tile]

@[simp] theorem door_tile_size_y (s : DigState) (v : Vector) :
    (door_tile s v).size_y = s.size_y := by simp [door_tile]

@[simp] theorem fill_tile_grid (s : DigState) (v : Vector) :
    (fill_tile s v).grid = setTile s.grid v Tile.wall := by simp [fill_tile]

@[simp] theorem fill_tile_doorways (s : DigState) (v : Vector) :
    (fill_tile s v).doorways = s.doorways := by simp [fill_tile]

@[simp] theorem fill_tile_rng (s : DigState) (v : Vector) :
    (fill_tile s v).rng = s.rng := by simp [fill_tile]

@[simp] theorem fill_tile_size_x (s : DigState) (v : Vector) :
    (fill_tile s v).size_x = s.size_x := by simp [fill_tile]

@[simp] theorem fill_tile_size_y (s : DigState) (v : Vector) :
    (fill_tile s v).size_y = s.size_y := by simp [fill_tile]

@[simp] theorem permawall_tile_grid (s : DigState) (v : Vector) :
    (permawall_tile s v).grid = setTile s.grid v Tile.permawall := by
  simp [permawall_tile]

@[simp] theorem permawall_tile_doorways (s : DigState) (v : Vector) :
    (permawall_tile s v).doorways = s.doorways := by simp [permawall_tile]

@[simp] theorem permawall_tile_rng (s : DigState) (v : Vector) :
    (permawall_tile s v).rng = s.rng := by simp [permawall_tile]

@[simp] theorem permawall_tile_size_x (s : DigState) (v : Vector) :
    (permawall_tile s v).size_x = s.size_x := by simp [permawall_tile]

@[simp] theorem permawall_tile_size_y (s : DigState) (v : Vector) :
    (permawall_tile s v).size_y = s.size_y := by simp [permawall_tile]

theorem writeTile_oob_of_inb {s : DigState} {v : Vector} (t : Tile)
    (h : is_in_bounds_or_border s v) : (writeTile s v t).oob = s.oob := by
  rw [writeTile_oob, markAccess_oob]; simp [h]

@[simp] theorem rand_range_grid (mn mx : Int) (s : DigState) :
    ((rand_range mn mx s).2).grid = s.grid := rfl

@[simp] theorem rand_range_doorways (mn mx : Int) (s : DigState) :
    ((rand_range mn mx s).2).doorways = s.doorways := rfl

@[simp] theorem rand_range_oob (mn mx : Int) (s : DigState) :
    ((rand_range mn mx s).2).oob = s.oob := rfl

@[simp] theorem rand_range_size_x (mn mx : Int) (s : DigState) :
    ((rand_range mn mx s).2).size_x = s.size_x := rfl

@[simp] theorem rand_range_size_y (mn mx : Int) (s : DigState) :
    ((rand_range mn mx s).2).size_y = s.size_y := rfl

/-- With `Min ≤ Max`, the drawn value of `rand_range(Min, Max)` lies in
`[Min, Max]`. -/
theorem rand_range_bounds {mn mx : Int} (h : mn ≤ mx) (s : DigState) :
    mn ≤ (rand_range mn mx s).1 ∧ (rand_range mn mx s).1 ≤ mx := by
  unfold rand_range randNext
  have hpos : 0 < (mx - mn + 1).toNat := by omega
  have hlt : s.rng 0 % (mx - mn + 1).toNat < (mx - mn + 1).toNat :=
    Nat.mod_lt _ hpos
  have hkey : Int.ofNat (s.rng 0 % (mx - mn + 1).toNat)
      = ((s.rng 0 % (mx - mn + 1).toNat : Nat) : Int) := rfl
  simp only [hkey]
  omega

@[simp] theorem push_doorway_grid (s : DigState) (d : Doorway) :
    (push_doorway s d).grid = s.grid := rfl

@[simp] theorem push_doorway_doorways (s : DigState) (d : Doorway) :
    (push_doorway s d).doorways = s.doorways ++ [d] := rfl

@[simp] theorem push_doorway_rng (s : DigState) (d : Doorway) :
    (push_doorway s d).rng = s.rng := rfl

@[simp] theorem push_doorway_oob (s : DigState) (d : Doorway) :
    (push_doorway s d).oob = s.oob := rfl

@[simp] theorem push_doorway_size_x (s : DigState) (d : Doorway) :
    (push_doorway s d).size_x = s.size_x := rfl

@[simp] theorem push_doorway_size_y (s : DigState) (d : Doorway) :
    (push_doorway s d).size_y = s.size_y := rfl

@[simp] theorem is_wall_fst (s : DigState) (v : Vector) :
    (is_wall s v).1 = wallLike (s.grid v) := rfl

@[simp] theorem is_wall_snd (s : DigState) (v : Vector) :
    (is_wall s v).2 = markAccess s v := rfl

@[simp] theorem is_permawall_fst (s : DigState) (v : Vector) :
    (is_permawall s v).1 = decide (s.grid v = Tile.permawall) := rfl

@[simp] theorem is_permawall_snd (s : DigState) (v : Vector) :
    (is_permawall s v).2 = markAccess s v := rfl

/-- Membership in the row-major index enumeration. -/
theorem mem_rowMajor {nx ny : Nat} {c : Nat × Nat} :
    c ∈ rowMajor nx ny ↔ c.1 < nx ∧ c.2 < ny := by
  obtain ⟨xi, yi⟩ := c
  simp only [rowMajor, List.mem_flatMap, List.mem_map, List.mem_range]
  constructor
  · rintro ⟨y, hy, x, hx, hxy⟩
    obtain ⟨rfl, rfl⟩ : x = xi ∧ y = yi := by
      constructor <;> · have := congrArg Prod.fst hxy; have := congrArg Prod.snd hxy; simp_all
    exact ⟨hx, hy⟩
  · rintro ⟨hx, hy⟩
    exact ⟨yi, hy, xi, hx, rfl⟩

/-! ## Room generator lemmas -/

/-- The feasibility scan never changes the state: every grid read it makes
is guarded by its own `is_in_bounds_or_border` test. -/
theorem dig_room_scan_state (e c hd : Vector) :
    ∀ (l : List (Nat × Nat)) (s : DigState), (dig_room_scan e c hd l s).2 = s := by
  intro l
  induction l with
  | nil => intro s; rfl
  | cons cc rest ih =>
    intro s
    unfold dig_room_scan
    by_cases hb : is_in_bounds_or_border s (roomCell c hd cc)
    · simp only [hb, not_true_eq_false, if_false, is_wall_fst, is_wall_snd,
        markAccess_of_inb hb]
      split
      · rfl
      · exact ih s
    · simp [hb]

/-- The feasibility scan succeeds exactly when every footprint cell is
inside the grid and is wall-like or the entrance. -/
theorem dig_room_scan_true (e c hd : Vector) :
    ∀ (l : List (Nat × Nat)) (s : DigState),
      (dig_room_scan e c hd l s).1 = true ↔
        ∀ cc ∈ l, is_in_bounds_or_border s (roomCell c hd cc) ∧
          (wallLike (s.grid (roomCell c hd cc)) = true ∨ roomCell c hd cc = e) := by
  intro l
  induction l with
  | nil => intro s; simp [dig_room_scan]
  | cons cc rest ih =>
    intro s
    unfold dig_room_scan
    by_cases hb : is_in_bounds_or_border s (roomCell c hd cc)
    · simp only [hb, not_true_eq_false, if_false, is_wall_fst, is_wall_snd,
        markAccess_of_inb hb]
      by_cases hw : wallLike (s.grid (roomCell c hd cc)) = true
      · simp only [hw, not_true_eq_false, false_and, if_false, ih s,
          List.mem_cons]
        constructor
        · intro h x hx
          rcases hx with rfl | hx
          · exact ⟨hb, Or.inl hw⟩
          · exact h x hx
        · intro h x hx
          exact h x (Or.inr hx)
      · by_cases he : roomCell c hd cc = e
        · simp only [he, ne_eq, not_true_eq_false, and_false, if_false, ih s,
            List.mem_cons]
          constructor
          · intro h x hx
            rcases hx with rfl | hx
            · exact ⟨hb, Or.inr he⟩
            · exact h x hx
          · intro h x hx
            exact h x (Or.inr hx)
        · simp only [Bool.not_eq_true] at hw
          simp only [hw, Bool.not_false, ne_eq, he, not_false_eq_true, and_self,
            if_true, List.mem_cons]
          constructor
          · intro h; cases h
          · intro h
            rcases (h cc (Or.inl rfl)).2 with h2 | h2
            · rw [hw] at h2; cases h2
            · exact absurd h2 he
    · simp only [hb, not_false_eq_true, if_true, List.mem_cons]
      constructor
      · intro h; cases h
      · intro h
        exact absurd (h cc (Or.inl rfl)).1 hb

/-- Fields of the state untouched by the fill phase. -/
theorem dig_room_fill_fields (c hd : Vector) :
    ∀ (l : List (Nat × Nat)) (s : DigState),
      (dig_room_fill c hd l s).doorways = s.doorways ∧
      (dig_room_fill c hd l s).rng = s.rng ∧
      (dig_room_fill c hd l s).size_x = s.size_x ∧
      (dig_room_fill c hd l s).size_y = s.size_y := by
  intro l
  induction l with
  | nil => intro s; exact ⟨rfl, rfl, rfl, rfl⟩
  | cons cc rest ih =>
    intro s
    unfold dig_room_fill
    obtain ⟨h1, h2, h3, h4⟩ := ih (fill_tile s (roomCell c hd cc))
    refine ⟨?_, ?_, ?_, ?_⟩
    · rw [h1]; simp [fill_tile]
    · rw [h2]; simp [fill_tile]
    · rw [h3]; simp [fill_tile]
    · rw [h4]; simp [fill_tile]

@[simp] theorem dig_room_fill_doorways (c hd : Vector) (l : List (Nat × Nat))
    (s : DigState) : (dig_room_fill c hd l s).doorways = s.doorways :=
  (dig_room_fill_fields c hd l s).1

@[simp] theorem dig_room_fill_rng (c hd : Vector) (l : List (Nat × Nat))
    (s : DigState) : (dig_room_fill c hd l s).rng = s.rng :=
  (dig_room_fill_fields c hd l s).2.1

@[simp] theorem dig_room_fill_size_x (c hd : Vector) (l : List (Nat × Nat))
    (s : DigState) : (dig_room_fill c hd l s).size_x = s.size_x :=
  (dig_room_fill_fields c hd l s).2.2.1

@[simp] theorem dig_room_fill_size_y (c hd : Vector) (l : List (Nat × Nat))
    (s : DigState) : (dig_room_fill c hd l s).size_y = s.size_y :=
  (dig_room_fill_fields c hd l s).2.2.2

/-- Grid after the fill phase: every visited footprint cell holds wall,
everything else is untouched. -/
theorem dig_room_fill_grid (c hd : Vector) :
    ∀ (l : List (Nat × Nat)) (s : DigState) (p : Vector),
      (dig_room_fill c hd l s).grid p =
        if p ∈ l.map (roomCell c hd) then Tile.wall else s.grid p := by
  intro l
  induction l with
  | nil => intro s p; simp [dig_room_fill]
  | cons cc rest ih =>
    intro s p
    unfold dig_room_fill
    rw [ih]
    by_cases hr : p ∈ rest.map (roomCell c hd)
    · simp [hr]
    · by_cases hc : p = roomCell c hd cc
      · simp [hr, hc, fill_tile]
      · simp only [hr, if_false, List.map_cons, List.mem_cons, hc,
          false_or, if_neg hr]
        simp [fill_tile, setTile_ne _ _ hc]

/-- The fill phase makes no out-of-bounds access when all its cells are in
the grid. -/
theorem dig_room_fill_oob (c hd : Vector) :
    ∀ (l : List (Nat × Nat)) (s : DigState),
      (∀ cc ∈ l, is_in_bounds_or_border s (roomCell c hd cc)) →
      (dig_room_fill c hd l s).oob = s.oob := by
  intro l
  induction l with
  | nil => intro s _; rfl
  | cons cc rest ih =>
    intro s h
    unfold dig_room_fill
    have hb := h cc (List.mem_cons_self _ _)
    have hstep : (fill_tile s (roomCell c hd cc)).oob = s.oob :=
      writeTile_oob_of_inb _ hb
    have hsx : (fill_tile s (roomCell c hd cc)).size_x = s.size_x := by
      simp [fill_tile]
    have hsy : (fill_tile s (roomCell c hd cc)).size_y = s.size_y := by
      simp [fill_tile]
    rw [ih (fill_tile s (roomCell c hd cc)) (fun x hx => by
      rw [inb_congr hsx hsy]
      exact h x (List.mem_cons_of_mem _ hx)), hstep]

/-- Fields of the state untouched by the carve phase. -/
theorem dig_room_carve_fields (c hd : Vector) :
    ∀ (l : List (Nat × Nat)) (s : DigState),
      (dig_room_carve c hd l s).doorways = s.doorways ∧
      (dig_room_carve c hd l s).rng = s.rng ∧
      (dig_room_carve c hd l s).size_x = s.size_x ∧
      (dig_room_carve c hd l s).size_y = s.size_y := by
  intro l
  induction l with
  | nil => intro s; exact ⟨rfl, rfl, rfl, rfl⟩
  | cons cc rest ih =>
    intro s
    unfold dig_room_carve
    obtain ⟨h1, h2, h3, h4⟩ :=
      ih (dig_tile s (c + hd + hd.right + hd.right * (cc.1 : Int) + hd * (cc.2 : Int)))
    refine ⟨?_, ?_, ?_, ?_⟩
    · rw [h1]; simp [dig_tile]
    · rw [h2]; simp [dig_tile]
    · rw [h3]; simp [dig_tile]
    · rw [h4]; simp [dig_tile]

@[simp] theorem dig_room_carve_doorways (c hd : Vector) (l : List (Nat × Nat))
    (s : DigState) : (dig_room_carve c hd l s).doorways = s.doorways :=
  (dig_room_carve_fields c hd l s).1

@[simp] theorem dig_room_carve_rng (c hd : Vector) (l : List (Nat × Nat))
    (s : DigState) : (dig_room_carve c hd l s).rng = s.rng :=
  (dig_room_carve_fields c hd l s).2.1

@[simp] theorem dig_room_carve_size_x (c hd : Vector) (l : List (Nat × Nat))
    (s : DigState) : (dig_room_carve c hd l s).size_x = s.size_x :=
  (dig_room_carve_fields c hd l s).2.2.1

@[simp] theorem dig_room_carve_size_y (c hd : Vector) (l : List (Nat × Nat))
    (s : DigState) : (dig_room_carve c hd l s).size_y = s.size_y :=
  (dig_room_carve_fields c hd l s).2.2.2

/-- Interior cell dug at index pair `(xi, yi)` of the carve phase. -/
def carveCell (c hd : Vector) (cc : Nat × Nat) : Vector :=
  c + hd + hd.right + hd.right * (cc.1 : Int) + hd * (cc.2 : Int)

/-- Grid after the carve phase: every visited interior cell holds floor,
everything else is untouched. -/
theorem dig_room_carve_grid (c hd : Vector) :
    ∀ (l : List (Nat × Nat)) (s : DigState) (p : Vector),
      (dig_room_carve c hd l s).grid p =
        if p ∈ l.map (carveCell c hd) then Tile.floor else s.grid p := by
  intro l
  induction l with
  | nil => intro s p; simp [dig_room_carve]
  | cons cc rest ih =>
    intro s p
    unfold dig_room_carve
    rw [ih]
    by_cases hr : p ∈ rest.map (carveCell c hd)
    · simp [hr]
    · by_cases hc : p = carveCell c hd cc
      · simp [hr, hc, dig_tile, carveCell]
      · simp only [hr, if_false, List.map_cons, List.mem_cons, hc,
          false_or, if_neg hr]
        have : p ≠ c + hd + hd.right + hd.right * (cc.1 : Int) + hd * (cc.2 : Int) := by
          simpa [carveCell] using hc
        simp [dig_tile, setTile_ne _ _ this]

/-- The carve phase makes no out-of-bounds access when all its cells are in
the grid. -/
theorem dig_room_carve_oob (c hd : Vector) :
    ∀ (l : List (Nat × Nat)) (s : DigState),
      (∀ cc ∈ l, is_in_bounds_or_border s (carveCell c hd cc)) →
      (dig_room_carve c hd l s).oob = s.oob := by
  intro l
  induction l with
  | nil => intro s _; rfl
  | cons cc rest ih =>
    intro s h
    unfold dig_room_carve
    have hb : is_in_bounds_or_border s
        (c + hd + hd.right + hd.right * (cc.1 : Int) + hd * (cc.2 : Int)) := by
      have := h cc (List.mem_cons_self _ _)
      simpa [carveCell] using this
    have hstep : (dig_tile s
        (c + hd + hd.right + hd.right * (cc.1 : Int) + hd * (cc.2 : Int))).oob = s.oob :=
      writeTile_oob_of_inb _ hb
    have hsx : (dig_tile s
        (c + hd + hd.right + hd.right * (cc.1 : Int) + hd * (cc.2 : Int))).size_x = s.size_x := by
      simp [dig_tile]
    have hsy : (dig_tile s
        (c + hd + hd.right + hd.right * (cc.1 : Int) + hd * (cc.2 : Int))).size_y = s.size_y := by
      simp [dig_tile]
    rw [ih (dig_tile s (c + hd + hd.right + hd.right * (cc.1 : Int) + hd * (cc.2 : Int)))
      (fun x hx => by
        rw [inb_congr hsx hsy]
        exact h x (List.mem_cons_of_mem _ hx))]
    exact hstep

/-- Interior cells are footprint cells shifted one index inward. -/
theorem carveCell_eq_roomCell (c hd : Vector) (xi yi : Nat) :
    carveCell c hd (xi, yi) = roomCell c hd (xi + 1, yi + 1) := by
  rw [Vector.ext_iff2]
  constructor <;>
    · simp only [carveCell, roomCell, Vector.add_def, Vector.mul_def, Vector.right]
      push_cast
      ring

/-- Positions of the footprint cells of a room: outer rectangle of size
`(sx+2) × (sy+2)` anchored at `corner`. -/
def roomFpList (c hd : Vector) (sx sy : Int) : List Vector :=
  (rowMajor (sx + 2).toNat (sy + 2).toNat).map (roomCell c hd)

/-- Positions of the interior cells of a room. -/
def roomInteriorList (c hd : Vector) (sx sy : Int) : List Vector :=
  (rowMajor sx.toNat sy.toNat).map (carveCell c hd)

/-- Positions of the four footprint corners of a room, in write order. -/
def roomCornerList (c hd : Vector) (sx sy : Int) : List Vector :=
  [c, c + hd.right * (sx + 1), c + hd * (sy + 1),
    c + hd.right * (sx + 1) + hd * (sy + 1)]

/-- Fields of the state untouched by the whole room commit phase. -/
theorem dig_room_commit_fields (s : DigState) (e c hd : Vector) (sx sy : Int) :
    (dig_room_commit s e c hd sx sy).doorways = s.doorways ∧
    (dig_room_commit s e c hd sx sy).rng = s.rng ∧
    (dig_room_commit s e c hd sx sy).size_x = s.size_x ∧
    (dig_room_commit s e c hd sx sy).size_y = s.size_y := by
  unfold dig_room_commit
  refine ⟨?_, ?_, ?_, ?_⟩ <;> simp

/-- Grid after the whole room commit phase: the entrance became a door, the
interior floor, the corners permawall, the rest of the footprint wall;
later writes take precedence over earlier ones. -/
theorem dig_room_commit_grid (s : DigState) (e c hd : Vector) (sx sy : Int)
    (p : Vector) :
    (dig_room_commit s e c hd sx sy).grid p =
      if p = e then Tile.door
      else if p ∈ roomInteriorList c hd sx sy then Tile.floor
      else if p ∈ roomCornerList c hd sx sy then Tile.permawall
      else if p ∈ roomFpList c hd sx sy then Tile.wall
      else s.grid p := by
  unfold dig_room_commit
  by_cases he : p = e
  · simp [he]
  · simp only [door_tile_grid, setTile_ne _ _ he, if_neg he]
    rw [dig_room_carve_grid]
    by_cases hi : p ∈ roomInteriorList c hd sx sy
    · have hi' : p ∈ (rowMajor sx.toNat sy.toNat).map (carveCell c hd) := by
        simpa [roomInteriorList] using hi
      simp [hi', hi]
    · have hi' : p ∉ (rowMajor sx.toNat sy.toNat).map (carveCell c hd) := by
        simpa [roomInteriorList] using hi
      simp only [hi', if_false, if_neg hi]
      by_cases hc : p ∈ roomCornerList c hd sx sy
      · simp only [if_pos hc]
        have hc' : p = c ∨ p = c + hd.right * (sx + 1) ∨ p = c + hd * (sy + 1) ∨
            p = c + hd.right * (sx + 1) + hd * (sy + 1) := by
          simpa [roomCornerList] using hc
        simp only [permawall_tile_grid, setTile_eval]
        split_ifs <;> tauto
      · obtain ⟨n1, n2, n3, n4⟩ : p ≠ c ∧ p ≠ c + hd.right * (sx + 1) ∧
            p ≠ c + hd * (sy + 1) ∧
            p ≠ c + hd.right * (sx + 1) + hd * (sy + 1) := by
          simpa [roomCornerList, not_or] using hc
        simp only [permawall_tile_grid, setTile_ne _ _ n4, setTile_ne _ _ n3,
          setTile_ne _ _ n2, setTile_ne _ _ n1, if_neg hc]
        rw [dig_room_fill_grid]
        by_cases hf : p ∈ roomFpList c hd sx sy
        · have hf' : p ∈ (rowMajor (sx + 2).toNat (sy + 2).toNat).map (roomCell c hd) := by
            simpa [roomFpList] using hf
          simp [hf', hf]
        · have hf' : p ∉ (rowMajor (sx + 2).toNat (sy + 2).toNat).map (roomCell c hd) := by
            simpa [roomFpList] using hf
          simp [hf', hf]

/-- Effect of the three doorway pushes of `dig_room`: the grid and the
bounds are untouched, and exactly three doorways with `has_door = true`
are appended — one per room wall, at a random offset along that wall. -/
theorem dig_room_pushes_spec (s : DigState) (c hd : Vector) {sx sy : Int}
    (hsx : 1 ≤ sx) (hsy : 1 ≤ sy) :
    (dig_room_pushes s c hd sx sy).grid = s.grid ∧
    (dig_room_pushes s c hd sx sy).oob = s.oob ∧
    (dig_room_pushes s c hd sx sy).size_x = s.size_x ∧
    (dig_room_pushes s c hd sx sy).size_y = s.size_y ∧
    ∃ r1 c1 r2 : Int, 1 ≤ r1 ∧ r1 ≤ sy ∧ 1 ≤ c1 ∧ c1 ≤ sx ∧ 1 ≤ r2 ∧ r2 ≤ sy ∧
      (dig_room_pushes s c hd sx sy).doorways =
        s.doorways ++ [⟨c + hd * r1, hd.left, true⟩,
          ⟨c + hd * (sy + 1) + hd.right * c1, hd, true⟩,
          ⟨c + hd.right * (sx + 1) + hd * r2, hd.right, true⟩] := by
  unfold dig_room_pushes
  rcases hr1 : rand_range 1 sy s with ⟨r1, s1⟩
  have hb1 := rand_range_bounds hsy s
  rw [hr1] at hb1
  have hs1 : s1 = (rand_range 1 sy s).2 := by rw [hr1]
  rcases hr2 : rand_range 1 sx (push_doorway s1 ⟨c + hd * r1, hd.left, true⟩)
    with ⟨c1, s3⟩
  have hb2 := rand_range_bounds hsx (push_doorway s1 ⟨c + hd * r1, hd.left, true⟩)
  rw [hr2] at hb2
  have hs3 : s3 = (rand_range 1 sx (push_doorway s1 ⟨c + hd * r1, hd.left, true⟩)).2 := by
    rw [hr2]
  rcases hr3 : rand_range 1 sy
      (push_doorway s3 ⟨c + hd * (sy + 1) + hd.right * c1, hd, true⟩)
    with ⟨r2, s5⟩
  have hb3 := rand_range_bounds hsy
    (push_doorway s3 ⟨c + hd * (sy + 1) + hd.right * c1, hd, true⟩)
  rw [hr3] at hb3
  have hs5 : s5 = (rand_range 1 sy
      (push_doorway s3 ⟨c + hd * (sy + 1) + hd.right * c1, hd, true⟩)).2 := by
    rw [hr3]
  simp only [hr1, hr2, hr3]
  subst hs1 hs3 hs5
  refine ⟨by simp, by simp, by simp, by simp, r1, c1, r2,
    hb1.1, hb1.2, hb2.1, hb2.2, hb3.1, hb3.2, ?_⟩
  simp

/-- A failing `dig_room_body` leaves the state exactly unchanged: the scan
performs guarded reads only and the early `return 0` precedes every write. -/
theorem dig_room_body_fail {s : DigState} {e hd : Vector} {sx sy eo : Int}
    (h : (dig_room_body s e hd sx sy eo).1 = false) :
    (dig_room_body s e hd sx sy eo).2 = s := by
  unfold dig_room_body at *
  rcases hscan : dig_room_scan e (e + hd.left * eo) hd
      (rowMajor (sx + 2).toNat (sy + 2).toNat) s with ⟨ok, s4⟩
  have hst : s4 = s := by
    have := dig_room_scan_state e (e + hd.left * eo) hd
      (rowMajor (sx + 2).toNat (sy + 2).toNat) s
    rw [hscan] at this
    exact this
  simp only [hscan] at h ⊢
  cases ok
  · simpa using hst
  · simp at h

/-- The body of `dig_room` fails exactly when its feasibility scan does. -/
theorem dig_room_body_fail_iff (s : DigState) (e hd : Vector) (sx sy eo : Int) :
    (dig_room_body s e hd sx sy eo).1 = false ↔
      ¬ ∀ cc ∈ rowMajor (sx + 2).toNat (sy + 2).toNat,
        is_in_bounds_or_border s (roomCell (e + hd.left * eo) hd cc) ∧
          (wallLike (s.grid (roomCell (e + hd.left * eo) hd cc)) = true ∨
            roomCell (e + hd.left * eo) hd cc = e) := by
  unfold dig_room_body
  rcases hscan : dig_room_scan e (e + hd.left * eo) hd
      (rowMajor (sx + 2).toNat (sy + 2).toNat) s with ⟨ok, s4⟩
  have htrue := dig_room_scan_true e (e + hd.left * eo) hd
    (rowMajor (sx + 2).toNat (sy + 2).toNat) s
  rw [hscan] at htrue
  simp only [hscan]
  cases ok
  · have hnp : ¬ ∀ cc ∈ rowMajor (sx + 2).toNat (sy + 2).toNat,
        is_in_bounds_or_border s (roomCell (e + hd.left * eo) hd cc) ∧
          (wallLike (s.grid (roomCell (e + hd.left * eo) hd cc)) = true ∨
            roomCell (e + hd.left * eo) hd cc = e) := fun hp => by
      simpa using htrue.mpr hp
    exact iff_of_true (by simp) hnp
  · have hp := htrue.mp rfl
    exact iff_of_false (by simp) (not_not_intro hp)

/-- On success the body of `dig_room` is the commit phase followed by the
three pushes, both applied to the original state. -/
theorem dig_room_body_succ {s : DigState} {e hd : Vector} {sx sy eo : Int}
    (h : (dig_room_body s e hd sx sy eo).1 = true) :
    (dig_room_body s e hd sx sy eo).2 =
      dig_room_pushes (dig_room_commit s e (e + hd.left * eo) hd sx sy)
        (e + hd.left * eo) hd sx sy ∧
    ∀ cc ∈ rowMajor (sx + 2).toNat (sy + 2).toNat,
      is_in_bounds_or_border s (roomCell (e + hd.left * eo) hd cc) ∧
        (wallLike (s.grid (roomCell (e + hd.left * eo) hd cc)) = true ∨
          roomCell (e + hd.left * eo) hd cc = e) := by
  unfold dig_room_body at *
  rcases hscan : dig_room_scan e (e + hd.left * eo) hd
      (rowMajor (sx + 2).toNat (sy + 2).toNat) s with ⟨ok, s4⟩
  have hst : s4 = s := by
    have := dig_room_scan_state e (e + hd.left * eo) hd
      (rowMajor (sx + 2).toNat (sy + 2).toNat) s
    rw [hscan] at this
    exact this
  have htrue := dig_room_scan_true e (e + hd.left * eo) hd
    (rowMajor (sx + 2).toNat (sy + 2).toNat) s
  rw [hscan] at htrue
  simp only [hscan] at h ⊢
  cases ok
  · simp at h
  · subst hst
    exact ⟨by simp, htrue.mp rfl⟩

/-- Footprint cell at index `(0,0)` is the corner itself. -/
theorem roomCell_c0 (c hd : Vector) : roomCell c hd (0, 0) = c := by
  rw [Vector.ext_iff2]
  constructor <;>
    · simp only [roomCell, Vector.add_def, Vector.mul_def, Vector.right]
      push_cast
      ring

/-- Footprint cell at index `(a, b)` for nonnegative integers `a`, `b`. -/
theorem roomCell_cxy (c hd : Vector) {a b : Int} (ha : 0 ≤ a) (hb : 0 ≤ b) :
    roomCell c hd (a.toNat, b.toNat) = c + hd.right * a + hd * b := by
  rw [Vector.ext_iff2]
  constructor <;>
    · simp only [roomCell, Vector.add_def, Vector.mul_def, Vector.right]
      rw [Int.toNat_of_nonneg ha, Int.toNat_of_nonneg hb]

/-- The entrance is the footprint cell at index `(entrance_offset, 0)`:
stepping `left*eo` to the corner and `right*eo` back cancels out. -/
theorem roomCell_entrance (e hd : Vector) {eo : Int} (h0 : 0 ≤ eo) :
    roomCell (e + hd.left * eo) hd (eo.toNat, 0) = e := by
  rw [Vector.ext_iff2]
  constructor <;>
    · simp only [roomCell, Vector.add_def, Vector.mul_def, Vector.right, Vector.left]
      rw [Int.toNat_of_nonneg h0]
      push_cast
      ring

/-- The room commit phase makes no out-of-bounds access when the whole
footprint and the entrance are in the grid. -/
theorem dig_room_commit_oob (s : DigState) (e c hd : Vector) {sx sy : Int}
    (hsx : 3 ≤ sx) (hsy : 3 ≤ sy)
    (hfp : ∀ cc ∈ rowMajor (sx + 2).toNat (sy + 2).toNat,
      is_in_bounds_or_border s (roomCell c hd cc))
    (he : is_in_bounds_or_border s e) :
    (dig_room_commit s e c hd sx sy).oob = s.oob := by
  unfold dig_room_commit
  have hnx : ((sx + 1).toNat, 0) ∈ rowMajor (sx + 2).toNat (sy + 2).toNat := by
    rw [mem_rowMajor]; constructor <;> simp <;> omega
  have hny : ((0 : Nat), (sy + 1).toNat) ∈ rowMajor (sx + 2).toNat (sy + 2).toNat := by
    rw [mem_rowMajor]; constructor <;> simp <;> omega
  have hnxy : ((sx + 1).toNat, (sy + 1).toNat) ∈ rowMajor (sx + 2).toNat (sy + 2).toNat := by
    rw [mem_rowMajor]; constructor <;> simp <;> omega
  have h00 : ((0 : Nat), (0 : Nat)) ∈ rowMajor (sx + 2).toNat (sy + 2).toNat := by
    rw [mem_rowMajor]; constructor <;> simp <;> omega
  have hc0 : is_in_bounds_or_border s c := by
    have := hfp _ h00
    rwa [roomCell_c0] at this
  have hcx : is_in_bounds_or_border s (c + hd.right * (sx + 1)) := by
    have := hfp _ hnx
    rw [show ((sx + 1).toNat, (0 : Nat)) = ((sx + 1).toNat, (0 : Int).toNat) from rfl,
      roomCell_cxy c hd (by omega) le_rfl] at this
    simpa using this
  have hcy : is_in_bounds_or_border s (c + hd * (sy + 1)) := by
    have := hfp _ hny
    rw [show ((0 : Nat), (sy + 1).toNat) = ((0 : Int).toNat, (sy + 1).toNat) from rfl,
      roomCell_cxy c hd le_rfl (by omega)] at this
    simpa using this
  have hcxy : is_in_bounds_or_border s (c + hd.right * (sx + 1) + hd * (sy + 1)) := by
    have := hfp _ hnxy
    rwa [roomCell_cxy c hd (by omega) (by omega)] at this
  -- step through the commit chain, tracking that sizes never change
  set s1 := dig_room_fill c hd (rowMajor (sx + 2).toNat (sy + 2).toNat) s with hs1
  have hsz1 : s1.size_x = s.size_x ∧ s1.size_y = s.size_y := by simp [hs1]
  have ho1 : s1.oob = s.oob :=
    dig_room_fill_oob c hd _ s hfp
  set s2 := permawall_tile s1 c with hs2
  have hsz2 : s2.size_x = s.size_x ∧ s2.size_y = s.size_y := by
    simp [hs2, hsz1.1, hsz1.2]
  have ho2 : s2.oob = s.oob := by
    rw [hs2, permawall_tile, writeTile_oob_of_inb _ ((inb_congr hsz1.1 hsz1.2 c).mpr hc0)]
    exact ho1
  set s3 := permawall_tile s2 (c + hd.right * (sx + 1)) with hs3
  have hsz3 : s3.size_x = s.size_x ∧ s3.size_y = s.size_y := by
    simp [hs3, hsz2.1, hsz2.2]
  have ho3 : s3.oob = s.oob := by
    rw [hs3, permawall_tile, writeTile_oob_of_inb _ ((inb_congr hsz2.1 hsz2.2 _).mpr hcx)]
    exact ho2
  set s4 := permawall_tile s3 (c + hd * (sy + 1)) with hs4
  have hsz4 : s4.size_x = s.size_x ∧ s4.size_y = s.size_y := by
    simp [hs4, hsz3.1, hsz3.2]
  have ho4 : s4.oob = s.oob := by
    rw [hs4, permawall_tile, writeTile_oob_of_inb _ ((inb_congr hsz3.1 hsz3.2 _).mpr hcy)]
    exact ho3
  set s5 := permawall_tile s4 (c + hd.right * (sx + 1) + hd * (sy + 1)) with hs5
  have hsz5 : s5.size_x = s.size_x ∧ s5.size_y = s.size_y := by
    simp [hs5, hsz4.1, hsz4.2]
  have ho5 : s5.oob = s.oob := by
    rw [hs5, permawall_tile, writeTile_oob_of_inb _ ((inb_congr hsz4.1 hsz4.2 _).mpr hcxy)]
    exact ho4
  set s6 := dig_room_carve c hd (rowMajor sx.toNat sy.toNat) s5 with hs6
  have hsz6 : s6.size_x = s.size_x ∧ s6.size_y = s.size_y := by
    simp [hs6, hsz5.1, hsz5.2]
  have ho6 : s6.oob = s.oob := by
    rw [hs6, dig_room_carve_oob c hd _ s5 (fun cc hcc => by
      rw [inb_congr hsz5.1 hsz5.2]
      obtain ⟨xi, yi⟩ := cc
      rw [carveCell_eq_roomCell]
      apply hfp
      rw [mem_rowMajor] at hcc ⊢
      constructor <;> simp <;> omega)]
    exact ho5
  rw [door_tile, writeTile_oob_of_inb _ ((inb_congr hsz6.1 hsz6.2 _).mpr he)]
  exact ho6

/-- A failing `dig_room` changes nothing but the random stream. -/
theorem dig_room_fail_state {s : DigState} {e hd : Vector}
    (h : (dig_room s e hd).1 = false) :
    (dig_room s e hd).2.grid = s.grid ∧
    (dig_room s e hd).2.doorways = s.doorways ∧
    (dig_room s e hd).2.oob = s.oob ∧
    (dig_room s e hd).2.size_x = s.size_x ∧
    (dig_room s e hd).2.size_y = s.size_y := by
  unfold dig_room at h ⊢
  rcases h1 : rand_range 3 6 s with ⟨sx, s1⟩
  rcases h2 : rand_range 3 6 s1 with ⟨sy, s2⟩
  rcases h3 : rand_range 1 sx s2 with ⟨eo, s3⟩
  simp only [h1, h2, h3] at h ⊢
  have hb := dig_room_body_fail h
  rw [hb]
  have e1 : s1.grid = s.grid ∧ s1.doorways = s.doorways ∧ s1.oob = s.oob ∧
      s1.size_x = s.size_x ∧ s1.size_y = s.size_y := by
    rw [show s1 = (rand_range 3 6 s).2 from by rw [h1]]
    exact ⟨rfl, rfl, rfl, rfl, rfl⟩
  have e2 : s2.grid = s1.grid ∧ s2.doorways = s1.doorways ∧ s2.oob = s1.oob ∧
      s2.size_x = s1.size_x ∧ s2.size_y = s1.size_y := by
    rw [show s2 = (rand_range 3 6 s1).2 from by rw [h2]]
    exact ⟨rfl, rfl, rfl, rfl, rfl⟩
  have e3 : s3.grid = s2.grid ∧ s3.doorways = s2.doorways ∧ s3.oob = s2.oob ∧
      s3.size_x = s2.size_x ∧ s3.size_y = s2.size_y := by
    rw [show s3 = (rand_range 1 sx s2).2 from by rw [h3]]
    exact ⟨rfl, rfl, rfl, rfl, rfl⟩
  refine ⟨?_, ?_, ?_, ?_, ?_⟩ <;> simp [e1.1, e1.2.1, e1.2.2.1, e1.2.2.2.1,
    e1.2.2.2.2, e2.1, e2.2.1, e2.2.2.1, e2.2.2.2.1, e2.2.2.2.2, e3.1, e3.2.1,
    e3.2.2.1, e3.2.2.2.1, e3.2.2.2.2]

/-- Full characterization of a successful `dig_room` call: the drawn sizes
and offset are in range, the whole footprint passed the scan on the
original grid, the final grid is the committed room, no out-of-bounds
access happens, and exactly three `has_door = true` doorways are pushed. -/
theorem dig_room_succ_spec {s : DigState} {e hd : Vector}
    (h : (dig_room s e hd).1 = true) :
    ∃ sx sy eo : Int, 3 ≤ sx ∧ sx ≤ 6 ∧ 3 ≤ sy ∧ sy ≤ 6 ∧ 1 ≤ eo ∧ eo ≤ sx ∧
      (∀ cc ∈ rowMajor (sx + 2).toNat (sy + 2).toNat,
        is_in_bounds_or_border s (roomCell (e + hd.left * eo) hd cc) ∧
          (wallLike (s.grid (roomCell (e + hd.left * eo) hd cc)) = true ∨
            roomCell (e + hd.left * eo) hd cc = e)) ∧
      (∀ p, (dig_room s e hd).2.grid p =
        if p = e then Tile.door
        else if p ∈ roomInteriorList (e + hd.left * eo) hd sx sy then Tile.floor
        else if p ∈ roomCornerList (e + hd.left * eo) hd sx sy then Tile.permawall
        else if p ∈ roomFpList (e + hd.left * eo) hd sx sy then Tile.wall
        else s.grid p) ∧
      (dig_room s e hd).2.oob = s.oob ∧
      (dig_room s e hd).2.size_x = s.size_x ∧
      (dig_room s e hd).2.size_y = s.size_y ∧
      ∃ r1 c1 r2 : Int, 1 ≤ r1 ∧ r1 ≤ sy ∧ 1 ≤ c1 ∧ c1 ≤ sx ∧ 1 ≤ r2 ∧ r2 ≤ sy ∧
        (dig_room s e hd).2.doorways = s.doorways ++
          [⟨e + hd.left * eo + hd * r1, hd.left, true⟩,
           ⟨e + hd.left * eo + hd * (sy + 1) + hd.right * c1, hd, true⟩,
           ⟨e + hd.left * eo + hd.right * (sx + 1) + hd * r2, hd.right, true⟩] := by
  unfold dig_room at h ⊢
  rcases h1 : rand_range 3 6 s with ⟨sx, s1⟩
  have hb1 := rand_range_bounds (by norm_num : (3 : Int) ≤ 6) s
  rw [h1] at hb1
  rcases h2 : rand_range 3 6 s1 with ⟨sy, s2⟩
  have hb2 := rand_range_bounds (by norm_num : (3 : Int) ≤ 6) s1
  rw [h2] at hb2
  rcases h3 : rand_range 1 sx s2 with ⟨eo, s3⟩
  have hb3 := rand_range_bounds (by omega : (1 : Int) ≤ sx) s2
  rw [h3] at hb3
  simp only [h1, h2, h3] at h ⊢
  have e1 : s1.grid = s.grid ∧ s1.doorways = s.doorways ∧ s1.oob = s.oob ∧
      s1.size_x = s.size_x ∧ s1.size_y = s.size_y := by
    rw [show s1 = (rand_range 3 6 s).2 from by rw [h1]]
    exact ⟨rfl, rfl, rfl, rfl, rfl⟩
  have e2 : s2.grid = s1.grid ∧ s2.doorways = s1.doorways ∧ s2.oob = s1.oob ∧
      s2.size_x = s1.size_x ∧ s2.size_y = s1.size_y := by
    rw [show s2 = (rand_range 3 6 s1).2 from by rw [h2]]
    exact ⟨rfl, rfl, rfl, rfl, rfl⟩
  have e3 : s3.grid = s2.grid ∧ s3.doorways = s2.doorways ∧ s3.oob = s2.oob ∧
      s3.size_x = s2.size_x ∧ s3.size_y = s2.size_y := by
    rw [show s3 = (rand_range 1 sx s2).2 from by rw [h3]]
    exact ⟨rfl, rfl, rfl, rfl, rfl⟩
  have hgrid3 : s3.grid = s.grid := by rw [e3.1, e2.1, e1.1]
  have hdw3 : s3.doorways = s.doorways := by rw [e3.2.1, e2.2.1, e1.2.1]
  have hoob3 : s3.oob = s.oob := by rw [e3.2.2.1, e2.2.2.1, e1.2.2.1]
  have hszx3 : s3.size_x = s.size_x := by
    rw [e3.2.2.2.1, e2.2.2.2.1, e1.2.2.2.1]
  have hszy3 : s3.size_y = s.size_y := by
    rw [e3.2.2.2.2, e2.2.2.2.2, e1.2.2.2.2]
  obtain ⟨hstate, hscan3⟩ := dig_room_body_succ h
  -- transfer the scan facts from the draw state to the original state
  have hscan : ∀ cc ∈ rowMajor (sx + 2).toNat (sy + 2).toNat,
      is_in_bounds_or_border s (roomCell (e + hd.left * eo) hd cc) ∧
        (wallLike (s.grid (roomCell (e + hd.left * eo) hd cc)) = true ∨
          roomCell (e + hd.left * eo) hd cc = e) := by
    intro cc hcc
    have := hscan3 cc hcc
    rwa [inb_congr hszx3 hszy3, hgrid3] at this
  have hent3 : is_in_bounds_or_border s3 e := by
    have hmem : (eo.toNat, (0 : Int).toNat) ∈ rowMajor (sx + 2).toNat (sy + 2).toNat := by
      rw [mem_rowMajor]; constructor <;> simp <;> omega
    have := hscan3 _ hmem
    rw [show ((0 : Int).toNat = 0) from rfl, roomCell_entrance e hd (by omega)] at this
    exact this.1
  have hfp3 : ∀ cc ∈ rowMajor (sx + 2).toNat (sy + 2).toNat,
      is_in_bounds_or_border s3 (roomCell (e + hd.left * eo) hd cc) :=
    fun cc hcc => (hscan3 cc hcc).1
  obtain ⟨pg, po, px, py, r1, c1, r2, hr1a, hr1b, hc1a, hc1b, hr2a, hr2b, hdw⟩ :=
    dig_room_pushes_spec (dig_room_commit s3 e (e + hd.left * eo) hd sx sy)
      (e + hd.left * eo) hd (show (1 : Int) ≤ sx by omega) (show (1 : Int) ≤ sy by omega)
  obtain ⟨cf1, cf2, cf3, cf4⟩ :=
    dig_room_commit_fields s3 e (e + hd.left * eo) hd sx sy
  have hco := dig_room_commit_oob s3 e (e + hd.left * eo) hd
    (by omega) (by omega) hfp3 hent3
  refine ⟨sx, sy, eo, by omega, by omega, by omega, by omega, by omega, by omega,
    hscan, ?_, ?_, ?_, ?_, r1, c1, r2, hr1a, hr1b, hc1a, hc1b, hr2a, hr2b, ?_⟩
  · intro p
    rw [hstate, pg, dig_room_commit_grid, hgrid3]
  · rw [hstate, po, hco, hoob3]
  · rw [hstate, px, cf3, hszx3]
  · rw [hstate, py, cf4, hszy3]
  · rw [hstate, hdw, cf1, hdw3]

/-! ## Corridor generator lemmas

Corridor cells are indexed along the heading axis and its clockwise
perpendicular: `nf e hd a b = e + hd*a + hd.right()*b`.  For a cardinal
heading this parametrization is injective, which gives all the
disjointness facts the commit-walk analysis needs. -/

/-- Normal form for cells around the corridor axis. -/
def nf (e hd : Vector) (a b : Int) : Vector := e + hd * a + hd.right * b

theorem nf_center (e hd : Vector) (a : Int) : e + hd * a = nf e hd a 0 := by
  rw [Vector.ext_iff2]
  constructor <;>
    · simp only [nf, Vector.add_def, Vector.mul_def, Vector.right]
      ring

theorem nf_left (e hd : Vector) (a : Int) :
    e + hd * a + hd.left = nf e hd a (-1) := by
  rw [Vector.ext_iff2]
  constructor <;>
    · simp only [nf, Vector.add_def, Vector.mul_def, Vector.right, Vector.left]
      ring

theorem nf_right (e hd : Vector) (a : Int) :
    e + hd * a + hd.right = nf e hd a 1 := by
  rw [Vector.ext_iff2]
  constructor <;>
    · simp only [nf, Vector.add_def, Vector.mul_def, Vector.right]
      ring

/-- Injectivity of the corridor parametrization for cardinal headings. -/
theorem nf_inj {hd : Vector} (hc : Cardinal hd) (e : Vector) (a b a' b' : Int) :
    nf e hd a b = nf e hd a' b' ↔ a = a' ∧ b = b' := by
  rcases hc with rfl | rfl | rfl | rfl <;>
    · simp only [nf, Vector.ext_iff2, Vector.add_def, Vector.mul_def, Vector.right]
      constructor
      · rintro ⟨h1, h2⟩
        constructor <;> omega
      · rintro ⟨rfl, rfl⟩
        exact ⟨rfl, rfl⟩

/-- Flanks of a strictly interior cell are inside the grid. -/
theorem cardinal_flank_inb {hd : Vector} (hc : Cardinal hd) {s : DigState}
    {v : Vector} (h : is_in_bounds s v) :
    is_in_bounds_or_border s (v + hd.left) ∧
    is_in_bounds_or_border s (v + hd.right) := by
  obtain ⟨h1, h2, h3, h4⟩ := h
  rcases hc with rfl | rfl | rfl | rfl <;>
    exact ⟨⟨by simp [Vector.add_def, Vector.left]; omega,
            by simp [Vector.add_def, Vector.left]; omega,
            by simp [Vector.add_def, Vector.left]; omega,
            by simp [Vector.add_def, Vector.left]; omega⟩,
           ⟨by simp [Vector.add_def, Vector.right]; omega,
            by simp [Vector.add_def, Vector.right]; omega,
            by simp [Vector.add_def, Vector.right]; omega,
            by simp [Vector.add_def, Vector.right]; omega⟩⟩

/-- The corridor feasibility walk never changes grid, worklist, stream or
sizes. -/
theorem corridor_scan_state (e hd : Vector) :
    ∀ (r ii : Nat) (s : DigState),
      ((corridor_scan e hd ii r s).2).grid = s.grid ∧
      ((corridor_scan e hd ii r s).2).doorways = s.doorways ∧
      ((corridor_scan e hd ii r s).2).rng = s.rng ∧
      ((corridor_scan e hd ii r s).2).size_x = s.size_x ∧
      ((corridor_scan e hd ii r s).2).size_y = s.size_y := by
  intro r
  induction r with
  | zero => intro ii s; exact ⟨rfl, rfl, rfl, rfl, rfl⟩
  | succ r ih =>
    intro ii s
    unfold corridor_scan
    simp only [is_wall, is_permawall]
    split
    · exact ⟨rfl, rfl, rfl, rfl, rfl⟩
    · split
      · exact ⟨by simp, by simp, by simp, by simp, by simp⟩
      · split
        · exact ⟨by simp, by simp, by simp, by simp, by simp⟩
        · split
          · exact ⟨by simp, by simp, by simp, by simp, by simp⟩
          · split
            · exact ⟨by simp, by simp, by simp, by simp, by simp⟩
            · obtain ⟨g1, g2, g3, g4, g5⟩ := ih (ii + 1)
                (markAccess (markAccess (markAccess (markAccess s
                  (e + hd * ((ii : Int) + 1))) (e + hd * ((ii : Int) + 1) + hd.left))
                  (e + hd * ((ii : Int) + 1) + hd.right)) (e + hd * ((ii : Int) + 1)))
              exact ⟨by rw [g1]; simp, by rw [g2]; simp, by rw [g3]; simp,
                by rw [g4]; simp, by rw [g5]; simp⟩

/-- For a cardinal heading the feasibility walk never makes an
out-of-bounds access: the center is checked with `is_in_bounds` before any
read and the flanks of a strictly interior cell are in the grid. -/
theorem corridor_scan_oob {hd : Vector} (hc : Cardinal hd) (e : Vector) :
    ∀ (r ii : Nat) (s : DigState), ((corridor_scan e hd ii r s).2).oob = s.oob := by
  intro r
  induction r with
  | zero => intro ii s; rfl
  | succ r ih =>
    intro ii s
    unfold corridor_scan
    simp only [is_wall, is_permawall]
    by_cases hin : is_in_bounds s (e + hd * ((ii : Int) + 1))
    · have hinb : is_in_bounds_or_border s (e + hd * ((ii : Int) + 1)) :=
        inb_of_in_bounds hin
      obtain ⟨hfl, hfr⟩ := cardinal_flank_inb hc hin
      simp only [hin, not_true_eq_false, if_false, markAccess_of_inb hinb,
        markAccess_of_inb hfl, markAccess_of_inb hfr]
      split
      · rfl
      · split
        · rfl
        · split
          · rfl
          · split
            · rfl
            · exact ih (ii + 1) s
    · simp [hin]

/-- Characterization of a feasibility walk that did not hard-fail: every
fully checked step saw a wall-like non-permawall center with wall-like
flanks inside the strict bounds, an intersection (`found = true`) means
the cell one past the truncated length is strictly in bounds and not
wall-like, and no intersection means the walk ran its full length. -/
theorem corridor_scan_some (e hd : Vector) :
    ∀ (r ii : Nat) (s : DigState) (k : Nat) (found : Bool),
      (corridor_scan e hd ii r s).1 = some (k, found) →
      ii ≤ k ∧ k ≤ ii + r ∧
      (∀ j : Nat, ii < j → j ≤ k →
        is_in_bounds s (e + hd * (j : Int)) ∧
        wallLike (s.grid (e + hd * (j : Int))) = true ∧
        s.grid (e + hd * (j : Int)) ≠ Tile.permawall ∧
        wallLike (s.grid (e + hd * (j : Int) + hd.left)) = true ∧
        wallLike (s.grid (e + hd * (j : Int) + hd.right)) = true) ∧
      (found = true →
        is_in_bounds s (e + hd * ((k : Int) + 1)) ∧
        wallLike (s.grid (e + hd * ((k : Int) + 1))) = false) ∧
      (found = false → k = ii + r) := by
  intro r
  induction r with
  | zero =>
    intro ii s k found h
    simp only [corridor_scan] at h
    obtain ⟨rfl, rfl⟩ : ii = k ∧ false = found := by
      have := Option.some.inj h
      exact ⟨congrArg Prod.fst this, congrArg Prod.snd this⟩
    refine ⟨le_rfl, by omega, ?_, ?_, fun _ => by omega⟩
    · intro j h1 h2; omega
    · intro hfd; cases hfd
  | succ r ih =>
    intro ii s k found h
    unfold corridor_scan at h
    simp only [is_wall, is_permawall] at h
    by_cases hin : is_in_bounds s (e + hd * ((ii : Int) + 1))
    · simp only [hin, not_true_eq_false, if_false] at h
      by_cases hw : wallLike (s.grid (e + hd * ((ii : Int) + 1))) = true
      · simp only [hw, not_true_eq_false, if_false] at h
        by_cases hwl : wallLike (s.grid (e + hd * ((ii : Int) + 1) + hd.left)) = true
        · simp only [markAccess_grid, hwl, not_true_eq_false, if_false] at h
          by_cases hwr : wallLike (s.grid (e + hd * ((ii : Int) + 1) + hd.right)) = true
          · simp only [markAccess_grid, hwr, not_true_eq_false, if_false] at h
            by_cases hpw : s.grid (e + hd * ((ii : Int) + 1)) = Tile.permawall
            · simp [markAccess_grid, hpw] at h
            · simp only [markAccess_grid, decide_eq_true_eq, hpw, if_false] at h
              -- recursive case: transport the IH conclusion about the marked
              -- state back to `s`
              set s4 := markAccess (markAccess (markAccess (markAccess s
                (e + hd * ((ii : Int) + 1))) (e + hd * ((ii : Int) + 1) + hd.left))
                (e + hd * ((ii : Int) + 1) + hd.right)) (e + hd * ((ii : Int) + 1))
                with hs4
              have hg4 : s4.grid = s.grid := by rw [hs4]; simp
              have hx4 : s4.size_x = s.size_x := by rw [hs4]; simp
              have hy4 : s4.size_y = s.size_y := by rw [hs4]; simp
              obtain ⟨k1, k2, k3, k4, k5⟩ := ih (ii + 1) s4 k found h
              refine ⟨by omega, by omega, ?_, ?_, fun hfd => by have := k5 hfd; omega⟩
              · intro j hj1 hj2
                by_cases hj : ii + 1 < j
                · have := k3 j hj hj2
                  rwa [hg4, in_bounds_congr hx4 hy4] at this
                · have hjeq : j = ii + 1 := by omega
                  subst hjeq
                  have hcast : ((ii + 1 : Nat) : Int) = (ii : Int) + 1 := by
                    push_cast; ring
                  rw [hcast]
                  exact ⟨hin, hw, hpw, hwl, hwr⟩
              · intro hfd
                have := k4 hfd
                rwa [hg4, in_bounds_congr hx4 hy4] at this
          · simp [markAccess_grid, hwr] at h
        · simp [markAccess_grid, hwl] at h
      · simp only [Bool.not_eq_true] at hw
        simp only [hw, Bool.not_false, if_true] at h
        obtain ⟨rfl, rfl⟩ : ii = k ∧ true = found := by
          have := Option.some.inj h
          exact ⟨congrArg Prod.fst this, congrArg Prod.snd this⟩
        refine ⟨le_rfl, by omega, ?_, ?_, ?_⟩
        · intro j h1 h2; omega
        · intro _
          exact ⟨by exact_mod_cast hin, by exact_mod_cast hw⟩
        · intro hfd; cases hfd
    · simp [hin] at h

theorem hd_step (e hd : Vector) (i : Nat) :
    e + hd * (i : Int) + hd = e + hd * ((i + 1 : Nat) : Int) := by
  rw [Vector.ext_iff2]
  constructor <;>
    · simp only [Vector.add_def, Vector.mul_def]
      push_cast
      ring

/-- The commit walk of `dig_corridor`, run with fuel `r` from the cell `r`
steps before a known intersection: when every center it will dig is
wall-like and strictly in bounds in the starting state and the cell one
past the walk is strictly in bounds but not wall-like, the walk runs its
full length without breaking early, ends exactly at the intersection
boundary, digs each center to floor and fills each flank to wall, and
touches nothing else (no worklist change, no out-of-bounds access). -/
theorem corridor_dig_go {hd : Vector} (hc : Cardinal hd) (e : Vector) :
    ∀ (r i : Nat) (s : DigState),
      1 ≤ r →
      (∀ j : Nat, i < j → j ≤ i + r →
        is_in_bounds s (e + hd * (j : Int)) ∧
        wallLike (s.grid (e + hd * (j : Int))) = true) →
      is_in_bounds s (e + hd * ((i + r : Nat) : Int) + hd) →
      wallLike (s.grid (e + hd * ((i + r : Nat) : Int) + hd)) = false →
      (corridor_dig hd (e + hd * (i : Int)) r s).1 = e + hd * ((i + r : Nat) : Int) ∧
      (∀ (j : Nat), i < j → j ≤ i + r →
        ((corridor_dig hd (e + hd * (i : Int)) r s).2).grid (e + hd * (j : Int)) =
          Tile.floor ∧
        ((corridor_dig hd (e + hd * (i : Int)) r s).2).grid
          (e + hd * (j : Int) + hd.left) = Tile.wall ∧
        ((corridor_dig hd (e + hd * (i : Int)) r s).2).grid
          (e + hd * (j : Int) + hd.right) = Tile.wall) ∧
      (∀ p : Vector,
        (¬ ∃ j : Nat, i < j ∧ j ≤ i + r ∧
          (p = e + hd * (j : Int) ∨ p = e + hd * (j : Int) + hd.left ∨
            p = e + hd * (j : Int) + hd.right)) →
        ((corridor_dig hd (e + hd * (i : Int)) r s).2).grid p = s.grid p) ∧
      ((corridor_dig hd (e + hd * (i : Int)) r s).2).doorways = s.doorways ∧
      ((corridor_dig hd (e + hd * (i : Int)) r s).2).rng = s.rng ∧
      ((corridor_dig hd (e + hd * (i : Int)) r s).2).size_x = s.size_x ∧
      ((corridor_dig hd (e + hd * (i : Int)) r s).2).size_y = s.size_y ∧
      ((corridor_dig hd (e + hd * (i : Int)) r s).2).oob = s.oob := by
  -- disjointness of centers and flanks along the corridor axis
  have qq : ∀ a b : Nat, (e + hd * (a : Int) = e + hd * (b : Int)) ↔ a = b := by
    intro a b
    rw [nf_center, nf_center, nf_inj hc]
    constructor
    · rintro ⟨h, _⟩; exact_mod_cast h
    · rintro rfl; exact ⟨rfl, rfl⟩
  have qfl : ∀ a b : Nat,
      ¬ (e + hd * (a : Int) = e + hd * (b : Int) + hd.left) := by
    intro a b h
    rw [nf_center, nf_left, nf_inj hc] at h
    omega
  have qfr : ∀ a b : Nat,
      ¬ (e + hd * (a : Int) = e + hd * (b : Int) + hd.right) := by
    intro a b h
    rw [nf_center, nf_right, nf_inj hc] at h
    omega
  have flfl : ∀ a b : Nat,
      (e + hd * (a : Int) + hd.left = e + hd * (b : Int) + hd.left) ↔ a = b := by
    intro a b
    rw [nf_left, nf_left, nf_inj hc]
    constructor
    · rintro ⟨h, _⟩; exact_mod_cast h
    · rintro rfl; exact ⟨rfl, rfl⟩
  have frfr : ∀ a b : Nat,
      (e + hd * (a : Int) + hd.right = e + hd * (b : Int) + hd.right) ↔ a = b := by
    intro a b
    rw [nf_right, nf_right, nf_inj hc]
    constructor
    · rintro ⟨h, _⟩; exact_mod_cast h
    · rintro rfl; exact ⟨rfl, rfl⟩
  have flfr : ∀ a b : Nat,
      ¬ (e + hd * (a : Int) + hd.left = e + hd * (b : Int) + hd.right) := by
    intro a b h
    rw [nf_left, nf_right, nf_inj hc] at h
    omega
  intro r
  induction r with
  | zero => intro i s h1; omega
  | succ r ih =>
    intro i s _ hcenters hnin hnw
    have hc1 : is_in_bounds s (e + hd * ((i + 1 : Nat) : Int)) ∧
        wallLike (s.grid (e + hd * ((i + 1 : Nat) : Int))) = true :=
      hcenters (i + 1) (by omega) (by omega)
    obtain ⟨hfl2, hfr2⟩ := cardinal_flank_inb hc hc1.1
    unfold corridor_dig
    rw [hd_step e hd i]
    simp only [is_wall]
    set pnew := e + hd * ((i + 1 : Nat) : Int) with hpnew
    set s3 := fill_tile (fill_tile (dig_tile s pnew) (pnew + hd.left))
      (pnew + hd.right) with hs3
    have hs3x : s3.size_x = s.size_x := by rw [hs3]; simp
    have hs3y : s3.size_y = s.size_y := by rw [hs3]; simp
    have hs3dw : s3.doorways = s.doorways := by rw [hs3]; simp
    have hs3rng : s3.rng = s.rng := by rw [hs3]; simp
    have d1x : (dig_tile s pnew).size_x = s.size_x := by simp
    have d1y : (dig_tile s pnew).size_y = s.size_y := by simp
    have d2x : (fill_tile (dig_tile s pnew) (pnew + hd.left)).size_x = s.size_x := by
      simp
    have d2y : (fill_tile (dig_tile s pnew) (pnew + hd.left)).size_y = s.size_y := by
      simp
    have hs3oob : s3.oob = s.oob := by
      rw [hs3, fill_tile, writeTile_oob_of_inb _ ((inb_congr d2x d2y _).mpr hfr2)]
      rw [fill_tile, writeTile_oob_of_inb _ ((inb_congr d1x d1y _).mpr hfl2)]
      rw [dig_tile, writeTile_oob_of_inb _ (inb_of_in_bounds hc1.1)]
    have hnel : ¬ pnew + hd.left = pnew := by
      rw [hpnew]; intro hh; exact qfl _ _ hh.symm
    have hner : ¬ pnew + hd.right = pnew := by
      rw [hpnew]; intro hh; exact qfr _ _ hh.symm
    have hs3grid : ∀ p, s3.grid p =
        if p = pnew then Tile.floor
        else if p = pnew + hd.left ∨ p = pnew + hd.right then Tile.wall
        else s.grid p := by
      intro p
      rw [hs3]
      simp only [fill_tile_grid, dig_tile_grid, setTile_eval]
      by_cases h1 : p = pnew + hd.right
      · simp [h1, hner]
      · by_cases h2 : p = pnew + hd.left
        · simp [h1, h2, hnel]
        · simp [h1, h2]
    have hnc1 : ¬ pnew + hd = pnew := by
      rw [hpnew, hd_step]; intro hh; rw [qq] at hh; omega
    have hnc2 : ¬ pnew + hd = pnew + hd.left := by
      rw [hpnew, hd_step]; intro hh; exact qfl _ _ hh
    have hnc3 : ¬ pnew + hd = pnew + hd.right := by
      rw [hpnew, hd_step]; intro hh; exact qfr _ _ hh
    have huntouched : s3.grid (pnew + hd) = s.grid (pnew + hd) := by
      rw [hs3grid, if_neg hnc1, if_neg (by tauto)]
    rcases Nat.eq_zero_or_pos r with hr0 | hrpos
    · -- last iteration: the stop checks see the intersection cell and break
      subst hr0
      have hnext : pnew + hd = e + hd * ((i + (0 + 1) : Nat) : Int) + hd := by
        rw [hpnew]
      have hnin3 : is_in_bounds s3 (pnew + hd) := by
        rw [in_bounds_congr hs3x hs3y, hnext]
        exact hnin
      have hnwall : wallLike (s3.grid (pnew + hd)) = false := by
        rw [huntouched, hnext]
        exact hnw
      rw [if_neg (not_not_intro hnin3), markAccess_of_inb (inb_of_in_bounds hnin3),
        if_pos (show ¬ wallLike (s3.grid (pnew + hd)) = true from by
          rw [hnwall]; simp)]
      refine ⟨rfl, ?_, ?_, hs3dw, hs3rng, hs3x, hs3y, hs3oob⟩
      · intro j hj1 hj2
        have hj : j = i + 1 := by omega
        subst hj
        refine ⟨?_, ?_, ?_⟩
        · exact (by rw [hs3grid, if_pos rfl] : s3.grid pnew = Tile.floor)
        · exact (by rw [hs3grid, if_neg hnel, if_pos (Or.inl rfl)] :
            s3.grid (pnew + hd.left) = Tile.wall)
        · exact (by rw [hs3grid, if_neg hner, if_pos (Or.inr rfl)] :
            s3.grid (pnew + hd.right) = Tile.wall)
      · intro p hp
        have hnp : ¬ p = pnew := fun hh =>
          hp ⟨i + 1, by omega, by omega, Or.inl (by rw [hh, hpnew])⟩
        have hnpf : ¬ (p = pnew + hd.left ∨ p = pnew + hd.right) := fun hh =>
          hp ⟨i + 1, by omega, by omega, by
            rcases hh with hh | hh
            · exact Or.inr (Or.inl (by rw [hh, hpnew]))
            · exact Or.inr (Or.inr (by rw [hh, hpnew]))⟩
        exact (by rw [hs3grid, if_neg hnp, if_neg hnpf] : s3.grid p = s.grid p)
    · -- the walk continues: the stop checks see the next wall-like center
      have hstep2 : pnew + hd = e + hd * ((i + 2 : Nat) : Int) := by
        rw [hpnew, hd_step]
      have hc2 : is_in_bounds s (e + hd * ((i + 2 : Nat) : Int)) ∧
          wallLike (s.grid (e + hd * ((i + 2 : Nat) : Int))) = true :=
        hcenters (i + 2) (by omega) (by omega)
      have hnin3 : is_in_bounds s3 (pnew + hd) := by
        rw [in_bounds_congr hs3x hs3y, hstep2]
        exact hc2.1
      have hnwall : wallLike (s3.grid (pnew + hd)) = true := by
        rw [huntouched, hstep2]
        exact hc2.2
      rw [if_neg (not_not_intro hnin3), markAccess_of_inb (inb_of_in_bounds hnin3),
        if_neg (show ¬ ¬ wallLike (s3.grid (pnew + hd)) = true from by
          rw [hnwall]; simp)]
      have hih := ih (i + 1) s3 hrpos
        (fun j hj1 hj2 => by
          rw [in_bounds_congr hs3x hs3y, hs3grid]
          have e1 : ¬ e + hd * (j : Int) = pnew := by
            rw [hpnew]; intro hh; rw [qq] at hh; omega
          have e2 : ¬ e + hd * (j : Int) = pnew + hd.left := by
            rw [hpnew]; intro hh; exact qfl _ _ hh
          have e3 : ¬ e + hd * (j : Int) = pnew + hd.right := by
            rw [hpnew]; intro hh; exact qfr _ _ hh
          rw [if_neg e1, if_neg (by tauto)]
          exact hcenters j (by omega) (by omega))
        (by
          rw [in_bounds_congr hs3x hs3y]
          have hcast : ((i + 1) + r : Nat) = (i + (r + 1) : Nat) := by omega
          rw [hcast]
          exact hnin)
        (by
          rw [hs3grid]
          have hcast : ((i + 1) + r : Nat) = (i + (r + 1) : Nat) := by omega
          rw [hcast]
          have e1 : ¬ e + hd * ((i + (r + 1) : Nat) : Int) + hd = pnew := by
            rw [hpnew, hd_step]; intro hh; rw [qq] at hh; omega
          have e2 : ¬ e + hd * ((i + (r + 1) : Nat) : Int) + hd = pnew + hd.left := by
            rw [hpnew, hd_step]; intro hh; exact qfl _ _ hh
          have e3 : ¬ e + hd * ((i + (r + 1) : Nat) : Int) + hd = pnew + hd.right := by
            rw [hpnew, hd_step]; intro hh; exact qfr _ _ hh
          rw [if_neg e1, if_neg (by tauto)]
          exact hnw)
      rw [← hpnew] at hih
      obtain ⟨g1, g2, g3, g4, g5, g6, g7, g8⟩ := hih
      have hcast2 : ((i + 1) + r : Nat) = (i + (r + 1) : Nat) := by omega
      rw [hcast2] at g1
      refine ⟨g1, ?_, ?_, by rw [g4, hs3dw], by rw [g5, hs3rng],
        by rw [g6, hs3x], by rw [g7, hs3y], by rw [g8, hs3oob]⟩
      · -- dug cells: either handled by the recursive walk or the first step
        intro j hj1 hj2
        by_cases hj : i + 1 < j
        · exact g2 j hj (by omega)
        · have hj' : j = i + 1 := by omega
          subst hj'
          have hout : ¬ ∃ j' : Nat, i + 1 < j' ∧ j' ≤ (i + 1) + r ∧
              (pnew = e + hd * (j' : Int) ∨
               pnew = e + hd * (j' : Int) + hd.left ∨
               pnew = e + hd * (j' : Int) + hd.right) := by
            rintro ⟨j', hj'1, _, hj'3 | hj'3 | hj'3⟩
            · rw [hpnew, qq] at hj'3; omega
            · rw [hpnew] at hj'3; exact qfl _ _ hj'3
            · rw [hpnew] at hj'3; exact qfr _ _ hj'3
          have houtl : ¬ ∃ j' : Nat, i + 1 < j' ∧ j' ≤ (i + 1) + r ∧
              (pnew + hd.left = e + hd * (j' : Int) ∨
               pnew + hd.left = e + hd * (j' : Int) + hd.left ∨
               pnew + hd.left = e + hd * (j' : Int) + hd.right) := by
            rintro ⟨j', hj'1, _, hj'3 | hj'3 | hj'3⟩
            · rw [hpnew] at hj'3; exact qfl _ _ hj'3.symm
            · rw [hpnew, flfl] at hj'3; omega
            · rw [hpnew] at hj'3; exact flfr _ _ hj'3
          have houtr : ¬ ∃ j' : Nat, i + 1 < j' ∧ j' ≤ (i + 1) + r ∧
              (pnew + hd.right = e + hd * (j' : Int) ∨
               pnew + hd.right = e + hd * (j' : Int) + hd.left ∨
               pnew + hd.right = e + hd * (j' : Int) + hd.right) := by
            rintro ⟨j', hj'1, _, hj'3 | hj'3 | hj'3⟩
            · rw [hpnew] at hj'3; exact qfr _ _ hj'3.symm
            · rw [hpnew] at hj'3; exact flfr _ _ hj'3.symm
            · rw [hpnew, frfr] at hj'3; omega
          refine ⟨?_, ?_, ?_⟩
          · exact (by rw [g3 pnew hout, hs3grid, if_pos rfl] :
              (corridor_dig hd pnew r s3).2.grid pnew = Tile.floor)
          · exact (by rw [g3 _ houtl, hs3grid, if_neg hnel, if_pos (Or.inl rfl)] :
              (corridor_dig hd pnew r s3).2.grid (pnew + hd.left) = Tile.wall)
          · exact (by rw [g3 _ houtr, hs3grid, if_neg hner, if_pos (Or.inr rfl)] :
              (corridor_dig hd pnew r s3).2.grid (pnew + hd.right) = Tile.wall)
      · -- untouched cells
        intro p hp
        have hout : ¬ ∃ j' : Nat, i + 1 < j' ∧ j' ≤ (i + 1) + r ∧
            (p = e + hd * (j' : Int) ∨ p = e + hd * (j' : Int) + hd.left ∨
             p = e + hd * (j' : Int) + hd.right) := by
          rintro ⟨j', hj'1, hj'2, hj'3⟩
          exact hp ⟨j', by omega, by omega, hj'3⟩
        rw [g3 p hout, hs3grid]
        have hnp : ¬ p = pnew := fun hh =>
          hp ⟨i + 1, by omega, by omega, Or.inl (by rw [hh, hpnew])⟩
        have hnpf : ¬ (p = pnew + hd.left ∨ p = pnew + hd.right) := fun hh =>
          hp ⟨i + 1, by omega, by omega, by
            rcases hh with hh | hh
            · exact Or.inr (Or.inl (by rw [hh, hpnew]))
            · exact Or.inr (Or.inr (by rw [hh, hpnew]))⟩
        rw [if_neg hnp, if_neg hnpf]

/-- A failing `dig_corridor_body` returns the feasibility walk's state:
grid, worklist, stream and sizes are unchanged (`return 0` precedes every
write), and with a cardinal heading not even the `oob` flag can change. -/
theorem dig_corridor_body_fail {s : DigState} {e hd : Vector} {len : Int}
    (h : (dig_corridor_body s e hd len).1 = false) :
    (dig_corridor_body s e hd len).2.grid = s.grid ∧
    (dig_corridor_body s e hd len).2.doorways = s.doorways ∧
    (dig_corridor_body s e hd len).2.rng = s.rng ∧
    (dig_corridor_body s e hd len).2.size_x = s.size_x ∧
    (dig_corridor_body s e hd len).2.size_y = s.size_y ∧
    (Cardinal hd → (dig_corridor_body s e hd len).2.oob = s.oob) := by
  obtain ⟨w1, w2, w3, w4, w5⟩ := corridor_scan_state e hd len.toNat 0 s
  unfold dig_corridor_body at h ⊢
  rcases hscan : corridor_scan e hd 0 len.toNat s with ⟨res, s2⟩
  rw [hscan] at w1 w2 w3 w4 w5
  simp only [] at w1 w2 w3 w4 w5
  simp only [hscan] at h ⊢
  have hoobtr : Cardinal hd → s2.oob = s.oob := fun hcd => by
    have := corridor_scan_oob hcd e len.toNat 0 s
    rw [hscan] at this
    exact this
  match res with
  | none => exact ⟨w1, w2, w3, w4, w5, hoobtr⟩
  | some (k, found) =>
    simp only [] at h ⊢
    by_cases hk : k ≤ 1
    · rw [if_pos hk]
      exact ⟨w1, w2, w3, w4, w5, hoobtr⟩
    · rw [if_neg hk] at h ⊢
      cases found
      · rw [if_pos (show ¬(false = true) from by simp)]
        exact ⟨w1, w2, w3, w4, w5, hoobtr⟩
      · exfalso
        rw [if_neg (show ¬¬(true = true) from by simp)] at h
        rcases hdig : corridor_dig hd e k s2 with ⟨pos, s3⟩
        simp only [hdig, is_wall] at h
        by_cases hb : is_in_bounds s3 (pos + hd)
        · rw [if_neg (not_not_intro hb)] at h
          by_cases hw : wallLike (s3.grid (pos + hd)) = true
          · rw [if_pos hw] at h
            simp at h
          · rw [if_neg hw] at h
            simp at h
        · rw [if_pos hb] at h
          simp at h

/-- Full characterization of a successful `dig_corridor_body` call with a
cardinal heading.  The walk truncated at some length `k ≥ 2` with an
intersection; the commit phase digs exactly the `k` centers, ending with a
door on the last one, fills the flanks to wall, and touches nothing else
— in particular the seal-and-push branch is unreachable, so the worklist
never changes and no growth point is proposed. -/
theorem dig_corridor_body_succ {s : DigState} {e hd : Vector} {len : Int}
    (hc : Cardinal hd) (h : (dig_corridor_body s e hd len).1 = true) :
    ∃ k : Nat, 2 ≤ k ∧
      (corridor_scan e hd 0 len.toNat s).1 = some (k, true) ∧
      (∀ j : Nat, 1 ≤ j → j ≤ k →
        is_in_bounds s (e + hd * (j : Int)) ∧
        wallLike (s.grid (e + hd * (j : Int))) = true ∧
        s.grid (e + hd * (j : Int)) ≠ Tile.permawall ∧
        wallLike (s.grid (e + hd * (j : Int) + hd.left)) = true ∧
        wallLike (s.grid (e + hd * (j : Int) + hd.right)) = true) ∧
      is_in_bounds s (e + hd * ((k : Int) + 1)) ∧
      wallLike (s.grid (e + hd * ((k : Int) + 1))) = false ∧
      (dig_corridor_body s e hd len).2.doorways = s.doorways ∧
      (dig_corridor_body s e hd len).2.rng = s.rng ∧
      (dig_corridor_body s e hd len).2.size_x = s.size_x ∧
      (dig_corridor_body s e hd len).2.size_y = s.size_y ∧
      (dig_corridor_body s e hd len).2.oob = s.oob ∧
      (∀ j : Nat, 1 ≤ j → j < k →
        (dig_corridor_body s e hd len).2.grid (e + hd * (j : Int)) = Tile.floor) ∧
      (dig_corridor_body s e hd len).2.grid (e + hd * (k : Int)) = Tile.door ∧
      (∀ j : Nat, 1 ≤ j → j ≤ k →
        (dig_corridor_body s e hd len).2.grid (e + hd * (j : Int) + hd.left) =
          Tile.wall ∧
        (dig_corridor_body s e hd len).2.grid (e + hd * (j : Int) + hd.right) =
          Tile.wall) ∧
      (∀ p : Vector,
        (¬ ∃ j : Nat, 1 ≤ j ∧ j ≤ k ∧
          (p = e + hd * (j : Int) ∨ p = e + hd * (j : Int) + hd.left ∨
            p = e + hd * (j : Int) + hd.right)) →
        (dig_corridor_body s e hd len).2.grid p = s.grid p) := by
  obtain ⟨w1, w2, w3, w4, w5⟩ := corridor_scan_state e hd len.toNat 0 s
  have woob := corridor_scan_oob hc e len.toNat 0 s
  unfold dig_corridor_body at h ⊢
  rcases hscan : corridor_scan e hd 0 len.toNat s with ⟨res, s2⟩
  rw [hscan] at w1 w2 w3 w4 w5 woob
  simp only [] at w1 w2 w3 w4 w5 woob
  simp only [hscan] at h ⊢
  match res with
  | none => simp at h
  | some (k, found) =>
    simp only [] at h ⊢
    by_cases hk : k ≤ 1
    · rw [if_pos hk] at h
      simp at h
    · rw [if_neg hk] at h ⊢
      cases found
      · rw [if_pos (show ¬(false = true) from by simp)] at h
        simp at h
      · rw [if_neg (show ¬¬(true = true) from by simp)] at h ⊢
        have hsome := corridor_scan_some e hd len.toNat 0 s k true
        rw [hscan] at hsome
        obtain ⟨_, hkr, hcenters, hfound, _⟩ := hsome rfl
        obtain ⟨hin1, hw1⟩ := hfound rfl
        have hcent2 : ∀ j : Nat, 0 < j → j ≤ 0 + k →
            is_in_bounds s2 (e + hd * (j : Int)) ∧
            wallLike (s2.grid (e + hd * (j : Int))) = true := by
          intro j hj1 hj2
          obtain ⟨a, b, _, _, _⟩ := hcenters j hj1 (by omega)
          rw [in_bounds_congr w4 w5, w1]
          exact ⟨a, b⟩
        have hin2 : is_in_bounds s2 (e + hd * ((0 + k : Nat) : Int) + hd) := by
          rw [in_bounds_congr w4 w5, hd_step]
          have hcc : (((0 + k : Nat) + 1 : Nat) : Int) = (k : Int) + 1 := by
            push_cast; omega
          rw [hcc]
          exact hin1
        have hw2 : wallLike (s2.grid (e + hd * ((0 + k : Nat) : Int) + hd)) = false := by
          rw [w1, hd_step]
          have hcc : (((0 + k : Nat) + 1 : Nat) : Int) = (k : Int) + 1 := by
            push_cast; omega
          rw [hcc]
          exact hw1
        have hgo := corridor_dig_go hc e k 0 s2 (by omega) hcent2 hin2 hw2
        have he0 : e + hd * ((0 : Nat) : Int) = e := by simp
        rw [he0] at hgo
        obtain ⟨g1, g2, g3, g4, g5, g6, g7, g8⟩ := hgo
        rcases hdig : corridor_dig hd e k s2 with ⟨pos, s3⟩
        rw [hdig] at g1 g2 g3 g4 g5 g6 g7 g8
        simp only [Nat.zero_add] at g1 g2 g3 g4 g5 g6 g7 g8
        simp only [hdig]
        have hpos : pos = e + hd * ((k : Nat) : Int) := g1
        have hnotwritten : ¬ ∃ j : Nat, 0 < j ∧ j ≤ k ∧
            (pos + hd = e + hd * (j : Int) ∨
             pos + hd = e + hd * (j : Int) + hd.left ∨
             pos + hd = e + hd * (j : Int) + hd.right) := by
          rintro ⟨j, hj1, hj2, hj3 | hj3 | hj3⟩
          · rw [hpos, hd_step, nf_center, nf_center, nf_inj hc] at hj3
            obtain ⟨h1, _⟩ := hj3
            omega
          · rw [hpos, hd_step, nf_center, nf_left, nf_inj hc] at hj3
            omega
          · rw [hpos, hd_step, nf_center, nf_right, nf_inj hc] at hj3
            omega
        have hg_next : s3.grid (pos + hd) = s.grid (pos + hd) := by
          rw [g3 _ hnotwritten, w1]
        have hcast1 : (((k : Nat) + 1 : Nat) : Int) = (k : Int) + 1 := by
          push_cast; ring
        have hin_next : is_in_bounds s3 (pos + hd) := by
          rw [in_bounds_congr g6 g7, in_bounds_congr w4 w5, hpos, hd_step, hcast1]
          exact hin1
        have hw_next : wallLike (s3.grid (pos + hd)) = false := by
          rw [hg_next, hpos, hd_step, hcast1]
          exact hw1
        simp only [is_wall]
        rw [if_neg (not_not_intro hin_next),
          markAccess_of_inb (inb_of_in_bounds hin_next),
          if_neg (show ¬ wallLike (s3.grid (pos + hd)) = true from by
            rw [hw_next]; simp)]
        have hposin : is_in_bounds_or_border s3 pos := by
          rw [inb_congr g6 g7, inb_congr w4 w5]
          have hkk := (hcenters k (by omega) (by omega)).1
          rw [hpos]
          exact inb_of_in_bounds hkk
        refine ⟨k, by omega, rfl, ?_, hin1, hw1, ?_, ?_, ?_, ?_, ?_, ?_, ?_, ?_, ?_⟩
        · intro j hj1 hj2
          obtain ⟨a, b, c, d, f⟩ := hcenters j (by omega) (by omega)
          exact ⟨a, b, c, d, f⟩
        · show (door_tile s3 pos).doorways = s.doorways
          rw [door_tile_doorways, g4, w2]
        · show (door_tile s3 pos).rng = s.rng
          rw [door_tile_rng, g5, w3]
        · show (door_tile s3 pos).size_x = s.size_x
          rw [door_tile_size_x, g6, w4]
        · show (door_tile s3 pos).size_y = s.size_y
          rw [door_tile_size_y, g7, w5]
        · show (door_tile s3 pos).oob = s.oob
          rw [door_tile, writeTile_oob_of_inb _ hposin, g8, woob]
        · intro j hj1 hj2
          show (door_tile s3 pos).grid (e + hd * (j : Int)) = Tile.floor
          have hne : ¬ e + hd * (j : Int) = pos := by
            rw [hpos, nf_center, nf_center, nf_inj hc]
            intro hh
            obtain ⟨h1, _⟩ := hh
            omega
          rw [door_tile_grid, setTile_ne _ _ hne]
          exact (g2 j (by omega) (by omega)).1
        · show (door_tile s3 pos).grid (e + hd * (k : Int)) = Tile.door
          have hpe : e + hd * (k : Int) = pos := by rw [hpos]
          rw [hpe, door_tile_grid, setTile_same]
        · intro j hj1 hj2
          have hnl : ¬ e + hd * (j : Int) + hd.left = pos := by
            rw [hpos, nf_left, nf_center, nf_inj hc]
            omega
          have hnr : ¬ e + hd * (j : Int) + hd.right = pos := by
            rw [hpos, nf_right, nf_center, nf_inj hc]
            omega
          constructor
          · show (door_tile s3 pos).grid (e + hd * (j : Int) + hd.left) = Tile.wall
            rw [door_tile_grid, setTile_ne _ _ hnl]
            exact (g2 j (by omega) (by omega)).2.1
          · show (door_tile s3 pos).grid (e + hd * (j : Int) + hd.right) = Tile.wall
            rw [door_tile_grid, setTile_ne _ _ hnr]
            exact (g2 j (by omega) (by omega)).2.2
        · intro p hp
          show (door_tile s3 pos).grid p = s.grid p
          have hnp : ¬ p = pos := fun hh => hp ⟨k, by omega, by omega,
            Or.inl (by rw [hh, hpos])⟩
          rw [door_tile_grid, setTile_ne _ _ hnp]
          rw [g3 p (fun ⟨j, hj1, hj2, hj3⟩ => hp ⟨j, by omega, by omega, hj3⟩), w1]

/-- A failing `dig_corridor` changes nothing but the random stream (and,
for a cardinal heading, cannot set the out-of-bounds flag either). -/
theorem dig_corridor_fail_state {s : DigState} {e hd : Vector}
    (h : (dig_corridor s e hd).1 = false) :
    (dig_corridor s e hd).2.grid = s.grid ∧
    (dig_corridor s e hd).2.doorways = s.doorways ∧
    (dig_corridor s e hd).2.size_x = s.size_x ∧
    (dig_corridor s e hd).2.size_y = s.size_y ∧
    (Cardinal hd → (dig_corridor s e hd).2.oob = s.oob) := by
  unfold dig_corridor at h ⊢
  rcases h1 : rand_range 2 6 s with ⟨len, s1⟩
  simp only [h1] at h ⊢
  have e1 : s1.grid = s.grid ∧ s1.doorways = s.doorways ∧ s1.oob = s.oob ∧
      s1.size_x = s.size_x ∧ s1.size_y = s.size_y := by
    rw [show s1 = (rand_range 2 6 s).2 from by rw [h1]]
    exact ⟨rfl, rfl, rfl, rfl, rfl⟩
  obtain ⟨b1, b2, b3, b4, b5, b6⟩ := dig_corridor_body_fail h
  exact ⟨by rw [b1, e1.1], by rw [b2, e1.2.1], by rw [b4, e1.2.2.2.1],
    by rw [b5, e1.2.2.2.2], fun hcd => by rw [b6 hcd, e1.2.2.1]⟩

/-- Full characterization of a successful `dig_corridor` call with a
cardinal heading, relative to the pre-draw state. -/
theorem dig_corridor_succ_spec {s : DigState} {e hd : Vector}
    (hc : Cardinal hd) (h : (dig_corridor s e hd).1 = true) :
    ∃ k : Nat, 2 ≤ k ∧
      (∀ j : Nat, 1 ≤ j → j ≤ k →
        is_in_bounds s (e + hd * (j : Int)) ∧
        wallLike (s.grid (e + hd * (j : Int))) = true ∧
        s.grid (e + hd * (j : Int)) ≠ Tile.permawall ∧
        wallLike (s.grid (e + hd * (j : Int) + hd.left)) = true ∧
        wallLike (s.grid (e + hd * (j : Int) + hd.right)) = true) ∧
      is_in_bounds s (e + hd * ((k : Int) + 1)) ∧
      wallLike (s.grid (e + hd * ((k : Int) + 1))) = false ∧
      (dig_corridor s e hd).2.doorways = s.doorways ∧
      (dig_corridor s e hd).2.size_x = s.size_x ∧
      (dig_corridor s e hd).2.size_y = s.size_y ∧
      (dig_corridor s e hd).2.oob = s.oob ∧
      (∀ j : Nat, 1 ≤ j → j < k →
        (dig_corridor s e hd).2.grid (e + hd * (j : Int)) = Tile.floor) ∧
      (dig_corridor s e hd).2.grid (e + hd * (k : Int)) = Tile.door ∧
      (∀ j : Nat, 1 ≤ j → j ≤ k →
        (dig_corridor s e hd).2.grid (e + hd * (j : Int) + hd.left) = Tile.wall ∧
        (dig_corridor s e hd).2.grid (e + hd * (j : Int) + hd.right) = Tile.wall) ∧
      (∀ p : Vector,
        (¬ ∃ j : Nat, 1 ≤ j ∧ j ≤ k ∧
          (p = e + hd * (j : Int) ∨ p = e + hd * (j : Int) + hd.left ∨
            p = e + hd * (j : Int) + hd.right)) →
        (dig_corridor s e hd).2.grid p = s.grid p) := by
  unfold dig_corridor at h ⊢
  rcases h1 : rand_range 2 6 s with ⟨len, s1⟩
  simp only [h1] at h ⊢
  have e1 : s1.grid = s.grid ∧ s1.doorways = s.doorways ∧ s1.oob = s.oob ∧
      s1.size_x = s.size_x ∧ s1.size_y = s.size_y := by
    rw [show s1 = (rand_range 2 6 s).2 from by rw [h1]]
    exact ⟨rfl, rfl, rfl, rfl, rfl⟩
  obtain ⟨k, hk2, _, hcent, hin1, hw1, b1, b2, b3, b4, b5, bf, bd, bfl, bu⟩ :=
    dig_corridor_body_succ hc h
  refine ⟨k, hk2, ?_, ?_, ?_, by rw [b1, e1.2.1], by rw [b3, e1.2.2.2.1],
    by rw [b4, e1.2.2.2.2], by rw [b5, e1.2.2.1], bf, bd, bfl, ?_⟩
  · intro j hj1 hj2
    have hx := hcent j hj1 hj2
    rw [in_bounds_congr e1.2.2.2.1 e1.2.2.2.2, e1.1] at hx
    exact hx
  · have hx := hin1
    rw [in_bounds_congr e1.2.2.2.1 e1.2.2.2.2] at hx
    exact hx
  · have hx := hw1
    rw [e1.1] at hx
    exact hx
  · intro p hp
    rw [bu p hp, e1.1]

/-- A corridor normal-form cell with a nonzero index differs from the
entrance. -/
theorem nf_ne_entrance {hd : Vector} (hc : Cardinal hd) (e : Vector)
    {a b : Int} (h : ¬ (a = 0 ∧ b = 0)) : nf e hd a b ≠ e := by
  intro hh
  rw [Vector.ext_iff2] at hh
  rcases hc with rfl | rfl | rfl | rfl <;>
    · simp only [nf, Vector.add_def, Vector.mul_def, Vector.right] at hh
      obtain ⟨h1, h2⟩ := hh
      omega

/-- The corridor generator never writes the entrance cell: every write of
the commit phase is at least one step ahead along the heading. -/
theorem dig_corridor_entrance_untouched {s : DigState} {e hd : Vector}
    (hc : Cardinal hd) : (dig_corridor s e hd).2.grid e = s.grid e := by
  by_cases h : (dig_corridor s e hd).1 = true
  · obtain ⟨k, _, _, _, _, _, _, _, _, _, _, _, bu⟩ := dig_corridor_succ_spec hc h
    apply bu
    rintro ⟨j, hj1, hj2, hj3 | hj3 | hj3⟩
    · rw [nf_center] at hj3
      exact nf_ne_entrance hc e (by omega) hj3.symm
    · rw [nf_left] at hj3
      exact nf_ne_entrance hc e (by omega) hj3.symm
    · rw [nf_right] at hj3
      exact nf_ne_entrance hc e (by omega) hj3.symm
  · simp only [Bool.not_eq_true] at h
    rw [(dig_corridor_fail_state h).1]

/-! ## Concrete runs used as counterexample inputs -/

/-- Oracle stream of rand() values under which every growth attempt from
the seed doorway is a corridor of drawn length 2 that finds no
intersection: the whole run commits nothing beyond the seeding. -/
def c1stream : Nat → Nat :=
  fun n => [0, 1, 0, 1, 0, 1, 0, 1, 0, 1, 0].getD n 0

/-- Oracle stream of rand() values under which iteration 1 places a room
whose far-right corner cell `(18,25)` becomes permawall, and iteration 2
places a second room whose footprint fill overwrites that permawall cell
with plain wall. -/
def c2stream : Nat → Nat :=
  fun n => [0, 0, 0, 0, 0, 0, 0, 1, 2, 0, 1, 0, 2, 0, 0, 0].getD n 0

/-- Constant-zero oracle stream. -/
def zstream : Nat → Nat := fun _ => 0

/-- A seeded 20×20 state, used as a concrete input below. -/
def c3state : DigState := dig_seed (init_state 20 20 zstream)

/-! ## Claim theorems -/

/-- C9: `rotateRight` (`Vector.right`) maps `(x,y)` to `(-y,x)` and
`rotateLeft` (`Vector.left`) maps `(x,y)` to `(y,-x)`; rotating left after
right (or right after left) is the identity, four applications of either
rotation are the identity, and both rotations permute the four cardinal
unit vectors — they never produce a non-unit vector from a unit vector. -/
theorem C9_rotations :
    (∀ v : Vector, v.right = ⟨-v.y, v.x⟩ ∧ v.left = ⟨v.y, -v.x⟩) ∧
    (∀ v : Vector, v.right.left = v ∧ v.left.right = v) ∧
    (∀ v : Vector, v.right.right.right.right = v ∧ v.left.left.left.left = v) ∧
    (∀ v : Vector, Cardinal v → Cardinal v.left ∧ Cardinal v.right) := by
  refine ⟨fun v => ⟨rfl, rfl⟩, fun v => ?_, fun v => ?_, fun v hv => ?_⟩
  · cases v
    constructor <;> simp [Vector.left, Vector.right]
  · cases v
    constructor <;> simp [Vector.left, Vector.right]
  · rcases hv with rfl | rfl | rfl | rfl <;>
      exact ⟨by simp [Cardinal, Vector.left], by simp [Cardinal, Vector.right]⟩

/-- Witness for C9 at the concrete heading `(0,-1)` (up). -/
theorem C9_rotations_witness :
    Cardinal (Vector.left ⟨0, -1⟩) ∧ Cardinal (Vector.right ⟨0, -1⟩) :=
  C9_rotations.2.2.2 ⟨0, -1⟩ (by decide)

/-- C10: for every state, entrance and cardinal heading, `dig_corridor`
never writes the entrance cell — whether it succeeds or fails, the
entrance cell's value after the call is exactly its value before, so the
entrance's final state is decided solely by the orchestrator. -/
theorem C10_corridor_entrance (s : DigState) (e hd : Vector)
    (hc : Cardinal hd) : (dig_corridor s e hd).2.grid e = s.grid e :=
  dig_corridor_entrance_untouched hc

/-- Witness for C10 on a concrete 9×9 state. -/
theorem C10_corridor_entrance_witness :
    (dig_corridor (init_state 9 9 zstream) ⟨4, 8⟩ ⟨0, -1⟩).2.grid ⟨4, 8⟩ =
      (init_state 9 9 zstream).grid ⟨4, 8⟩ :=
  C10_corridor_entrance (init_state 9 9 zstream) ⟨4, 8⟩ ⟨0, -1⟩ (by decide)

/-- C4: room placement is atomic.  For every entrance, heading and drawn
parameters, the body of `dig_room` fails exactly when some footprint cell
is outside `is_in_bounds_or_border` or is neither wall-like nor the
entrance; a failing body returns the state byte-for-byte unchanged (no
tile is written before the whole footprint has been validated), and a
failing `dig_room` call leaves grid, worklist and bounds-flag unchanged. -/
theorem C4_room_atomicity (s : DigState) (e hd : Vector) :
    (∀ sx sy eo : Int,
      ((dig_room_body s e hd sx sy eo).1 = false ↔
        ¬ ∀ cc ∈ rowMajor (sx + 2).toNat (sy + 2).toNat,
          is_in_bounds_or_border s (roomCell (e + hd.left * eo) hd cc) ∧
            (wallLike (s.grid (roomCell (e + hd.left * eo) hd cc)) = true ∨
              roomCell (e + hd.left * eo) hd cc = e)) ∧
      ((dig_room_body s e hd sx sy eo).1 = false →
        (dig_room_body s e hd sx sy eo).2 = s)) ∧
    ((dig_room s e hd).1 = false →
      (dig_room s e hd).2.grid = s.grid ∧
      (dig_room s e hd).2.doorways = s.doorways ∧
      (dig_room s e hd).2.oob = s.oob) := by
  refine ⟨fun sx sy eo => ⟨dig_room_body_fail_iff s e hd sx sy eo,
    fun h => dig_room_body_fail h⟩, fun h => ?_⟩
  obtain ⟨h1, h2, h3, _, _⟩ := dig_room_fail_state h
  exact ⟨h1, h2, h3⟩

/-- Witness for C4: on a fresh 4×4 grid a room at the corner facing up
cannot fit, the call fails and the state is untouched. -/
theorem C4_room_atomicity_witness :
    (dig_room (init_state 4 4 zstream) ⟨0, 0⟩ ⟨0, -1⟩).1 = false ∧
    (dig_room (init_state 4 4 zstream) ⟨0, 0⟩ ⟨0, -1⟩).2.grid =
      (init_state 4 4 zstream).grid := by
  have hf : (dig_room (init_state 4 4 zstream) ⟨0, 0⟩ ⟨0, -1⟩).1 = false := by
    decide
  exact ⟨hf, ((C4_room_atomicity (init_state 4 4 zstream) ⟨0, 0⟩ ⟨0, -1⟩).2 hf).1⟩

/-- C5: for every entrance, cardinal heading and drawn length, whenever
the feasibility walk reports a truncated length of at most 1 or no
intersection, the corridor body returns `false` with the grid and the
worklist untouched; consequently every committed corridor has a truncated
length of at least 2 with an intersection, its first two path cells really
are committed (the first as floor, the last as a door), so no corridor
footprint shorter than 2 cells and no pure dead end is ever committed. -/
theorem C5_corridor_guards (s : DigState) (e hd : Vector) (len : Int)
    (hc : Cardinal hd) :
    (∀ (k : Nat) (found : Bool),
      (corridor_scan e hd 0 len.toNat s).1 = some (k, found) →
      (k ≤ 1 ∨ found = false) →
      (dig_corridor_body s e hd len).1 = false ∧
      (dig_corridor_body s e hd len).2.grid = s.grid ∧
      (dig_corridor_body s e hd len).2.doorways = s.doorways) ∧
    ((corridor_scan e hd 0 len.toNat s).1 = none →
      (dig_corridor_body s e hd len).1 = false ∧
      (dig_corridor_body s e hd len).2.grid = s.grid ∧
      (dig_corridor_body s e hd len).2.doorways = s.doorways) ∧
    ((dig_corridor_body s e hd len).1 = true →
      ∃ k : Nat, 2 ≤ k ∧
        (corridor_scan e hd 0 len.toNat s).1 = some (k, true) ∧
        (dig_corridor_body s e hd len).2.grid (e + hd * (1 : Int)) = Tile.floor ∧
        (dig_corridor_body s e hd len).2.grid (e + hd * (k : Int)) = Tile.door) := by
  obtain ⟨w1, w2, w3, w4, w5⟩ := corridor_scan_state e hd len.toNat 0 s
  refine ⟨?_, ?_, ?_⟩
  · intro k found hscan1 hguard
    have hfalse : (dig_corridor_body s e hd len).1 = false := by
      unfold dig_corridor_body
      rcases hscan : corridor_scan e hd 0 len.toNat s with ⟨res, s2⟩
      rw [hscan] at hscan1
      simp only [] at hscan1
      subst hscan1
      simp only [hscan]
      by_cases hk : k ≤ 1
      · rw [if_pos hk]
      · rw [if_neg hk]
        have hfd : found = false := by
          rcases hguard with hguard | hguard
          · exact absurd hguard hk
          · exact hguard
        subst hfd
        rw [if_pos (show ¬(false = true) from by simp)]
    obtain ⟨b1, b2, _, _, _, _⟩ := dig_corridor_body_fail hfalse
    exact ⟨hfalse, b1, b2⟩
  · intro hnone
    have hfalse : (dig_corridor_body s e hd len).1 = false := by
      unfold dig_corridor_body
      rcases hscan : corridor_scan e hd 0 len.toNat s with ⟨res, s2⟩
      rw [hscan] at hnone
      simp only [] at hnone
      subst hnone
      simp only [hscan]
    obtain ⟨b1, b2, _, _, _, _⟩ := dig_corridor_body_fail hfalse
    exact ⟨hfalse, b1, b2⟩
  · intro h
    obtain ⟨k, hk2, hscan1, _, _, _, _, _, _, _, _, bf, bd, _, _⟩ :=
      dig_corridor_body_succ hc h
    refine ⟨k, hk2, hscan1, ?_, bd⟩
    have := bf 1 le_rfl (by omega)
    simpa using this

/-- Witness for C5: on a fresh 20×20 grid a corridor of drawn length 2
from the seed edge going up completes its walk without an intersection and
is rejected with no mutation. -/
theorem C5_corridor_guards_witness :
    (dig_corridor_body (init_state 20 20 zstream) ⟨10, 19⟩ ⟨0, -1⟩ 2).1 = false ∧
    (dig_corridor_body (init_state 20 20 zstream) ⟨10, 19⟩ ⟨0, -1⟩ 2).2.grid =
      (init_state 20 20 zstream).grid := by
  have h := ((C5_corridor_guards (init_state 20 20 zstream) ⟨10, 19⟩ ⟨0, -1⟩ 2
    (by decide)).1) 2 false (by decide) (Or.inr rfl)
  exact ⟨h.1, h.2.1⟩

set_option maxRecDepth 100000 in
/-- C3 counterexample: the room generator itself appends its growth points
to the worklist.  Called directly (no orchestrator involved) on a seeded
20×20 state whose worklist holds one doorway, `dig_room` succeeds and the
worklist afterwards holds four — the generator is not side-effect-free
with respect to the worklist. -/
theorem C3_counterexample :
    (dig_room c3state ⟨10, 19⟩ ⟨0, -1⟩).1 = true ∧
    c3state.doorways.length = 1 ∧
    (dig_room c3state ⟨10, 19⟩ ⟨0, -1⟩).2.doorways.length = 4 := by
  refine ⟨by decide, by decide, by decide⟩

/-- C3 amended: the generators push their growth points onto the worklist
themselves (the orchestrator is not the only appender).  On success
`dig_room` appends exactly three doorways, each with `has_door = true`; on
failure it appends none; and `dig_corridor` never appends any doorway at
all (its seal-and-push branch is unreachable for cardinal headings). -/
theorem C3_amended (s : DigState) (e hd : Vector) (hc : Cardinal hd) :
    ((dig_room s e hd).1 = false →
      (dig_room s e hd).2.doorways = s.doorways) ∧
    ((dig_room s e hd).1 = true →
      ∃ d1 d2 d3 : Doorway, d1.has_door = true ∧ d2.has_door = true ∧
        d3.has_door = true ∧
        (dig_room s e hd).2.doorways = s.doorways ++ [d1, d2, d3]) ∧
    (dig_corridor s e hd).2.doorways = s.doorways := by
  refine ⟨fun h => (dig_room_fail_state h).2.1, fun h => ?_, ?_⟩
  · obtain ⟨sx, sy, eo, _, _, _, _, _, _, _, _, _, _, _,
      r1, c1, r2, _, _, _, _, _, _, hdw⟩ := dig_room_succ_spec h
    exact ⟨_, _, _, rfl, rfl, rfl, hdw⟩
  · by_cases h : (dig_corridor s e hd).1 = true
    · obtain ⟨k, _, _, _, _, hdw, _⟩ := dig_corridor_succ_spec hc h
      exact hdw
    · simp only [Bool.not_eq_true] at h
      exact (dig_corridor_fail_state h).2.1

/-- Witness for C3 amended, on the same concrete seeded state as the
counterexample. -/
theorem C3_amended_witness :
    ∃ d1 d2 d3 : Doorway, d1.has_door = true ∧ d2.has_door = true ∧
      d3.has_door = true ∧
      (dig_room c3state ⟨10, 19⟩ ⟨0, -1⟩).2.doorways =
        c3state.doorways ++ [d1, d2, d3] :=
  (C3_amended c3state ⟨10, 19⟩ ⟨0, -1⟩ (by decide)).2.1 (by decide)

set_option maxRecDepth 100000 in
/-- C2 counterexample: a Permawall cell does not survive the rest of the
run.  On a 30×30 grid with the oracle stream `c2stream`, iteration 1
places a room that stamps `(18,25)` permawall, and iteration 2 places a
second room whose footprint fill (which accepts permawall as wall-like)
overwrites that same cell with plain wall. -/
theorem C2_counterexample :
    (dig_drain 1 (dig_seed (init_state 30 30 c2stream))).grid ⟨18, 25⟩ =
      Tile.permawall ∧
    (dig_drain 2 (dig_seed (init_state 30 30 c2stream))).grid ⟨18, 25⟩ =
      Tile.wall := by
  refine ⟨by decide, by decide⟩

/-- C2 amended: only the corridor generator protects Permawall.  A cell
that is Permawall before a `dig_corridor` call is never re-carved to floor
or door — the walk rejects permawall centers — though a flank fill may
downgrade it to plain wall; room placement enjoys no such protection
(its feasibility scan treats permawall as wall-like, see the
counterexample). -/
theorem C2_amended (s : DigState) (e hd : Vector) (p : Vector)
    (hc : Cardinal hd) (hp : s.grid p = Tile.permawall) :
    (dig_corridor s e hd).2.grid p = Tile.permawall ∨
    (dig_corridor s e hd).2.grid p = Tile.wall := by
  by_cases h : (dig_corridor s e hd).1 = true
  · obtain ⟨k, hk2, hcent, _, _, _, _, _, _, _, _, bfl, bu⟩ :=
      dig_corridor_succ_spec hc h
    by_cases hflank : ∃ j : Nat, 1 ≤ j ∧ j ≤ k ∧
        (p = e + hd * (j : Int) + hd.left ∨ p = e + hd * (j : Int) + hd.right)
    · obtain ⟨j, hj1, hj2, hj3 | hj3⟩ := hflank
      · right; rw [hj3]; exact (bfl j hj1 hj2).1
      · right; rw [hj3]; exact (bfl j hj1 hj2).2
    · by_cases hcenter : ∃ j : Nat, 1 ≤ j ∧ j ≤ k ∧ p = e + hd * (j : Int)
      · obtain ⟨j, hj1, hj2, hj3⟩ := hcenter
        exfalso
        have := (hcent j hj1 hj2).2.2.1
        rw [← hj3] at this
        exact this hp
      · left
        rw [bu p (by
          rintro ⟨j, hj1, hj2, hj3 | hj3 | hj3⟩
          · exact hcenter ⟨j, hj1, hj2, hj3⟩
          · exact hflank ⟨j, hj1, hj2, Or.inl hj3⟩
          · exact hflank ⟨j, hj1, hj2, Or.inr hj3⟩)]
        exact hp
  · simp only [Bool.not_eq_true] at h
    left
    rw [(dig_corridor_fail_state h).1]
    exact hp

/-- Witness for C2 amended on a concrete state with one permawall cell. -/
theorem C2_amended_witness :
    (dig_corridor (permawall_tile (init_state 9 9 zstream) ⟨2, 2⟩)
        ⟨4, 8⟩ ⟨0, -1⟩).2.grid ⟨2, 2⟩ = Tile.permawall ∨
    (dig_corridor (permawall_tile (init_state 9 9 zstream) ⟨2, 2⟩)
        ⟨4, 8⟩ ⟨0, -1⟩).2.grid ⟨2, 2⟩ = Tile.wall :=
  C2_amended (permawall_tile (init_state 9 9 zstream) ⟨2, 2⟩) ⟨4, 8⟩ ⟨0, -1⟩
    ⟨2, 2⟩ (by decide) (by decide)

set_option maxRecDepth 100000 in
/-- C1 counterexample: the final generated grid of a complete run on a
20×20 grid with the oracle stream `c1stream` (every growth attempt fails,
so the run is just the seeding followed by draining the one doorway) has a
`Door` on the border cell `(10,19)` — the bottom edge, `y = height-1` —
so a border cell does hold `Door` in a final generated grid. -/
theorem C1_counterexample :
    (dig_loop (init_state 20 20 c1stream)).grid ⟨10, 19⟩ = Tile.door ∧
    (dig_loop (init_state 20 20 c1stream)).doorways = [] := by
  refine ⟨by decide, by decide⟩

/-- C8: after the seeding step on a 20×20 grid — whatever the random
stream, since seeding draws nothing — the cell `(10,19)` is a door, its
lateral neighbors `(9,19)` and `(11,19)` are wall, the worklist holds
exactly the initial entrance doorway heading up into the grid with
`has_door = true`, and every other cell is still unknown. -/
theorem C8_seeding (rng : Nat → Nat) :
    (dig_seed (init_state 20 20 rng)).grid ⟨10, 19⟩ = Tile.door ∧
    (dig_seed (init_state 20 20 rng)).grid ⟨9, 19⟩ = Tile.wall ∧
    (dig_seed (init_state 20 20 rng)).grid ⟨11, 19⟩ = Tile.wall ∧
    (dig_seed (init_state 20 20 rng)).doorways =
      [⟨⟨10, 19⟩, ⟨0, -1⟩, true⟩] ∧
    ∀ x y : Int, ¬ (y = 19 ∧ (x = 9 ∨ x = 10 ∨ x = 11)) →
      (dig_seed (init_state 20 20 rng)).grid ⟨x, y⟩ = Tile.unknown := by
  have hg : (dig_seed (init_state 20 20 rng)).grid =
      setTile (setTile (setTile (fun _ => Tile.unknown) ⟨10, 19⟩ Tile.door)
        ⟨11, 19⟩ Tile.wall) ⟨9, 19⟩ Tile.wall := rfl
  refine ⟨rfl, rfl, rfl, rfl, ?_⟩
  intro x y h
  rw [hg]
  rw [setTile_ne _ _ (by
    intro hh
    rw [Vector.ext_iff2] at hh
    exact h ⟨hh.2, Or.inl hh.1⟩)]
  rw [setTile_ne _ _ (by
    intro hh
    rw [Vector.ext_iff2] at hh
    exact h ⟨hh.2, Or.inr (Or.inr hh.1)⟩)]
  rw [setTile_ne _ _ (by
    intro hh
    rw [Vector.ext_iff2] at hh
    exact h ⟨hh.2, Or.inr (Or.inl hh.1)⟩)]

/-- Witness for C8 at the constant-zero stream and the corner cell. -/
theorem C8_seeding_witness :
    (dig_seed (init_state 20 20 zstream)).grid ⟨10, 19⟩ = Tile.door ∧
    (dig_seed (init_state 20 20 zstream)).grid ⟨0, 0⟩ = Tile.unknown :=
  ⟨(C8_seeding zstream).1, (C8_seeding zstream).2.2.2.2 0 0 (by simp)⟩

/-! ## Orchestrator lemmas -/

/-- A failing `dig_random` retry loop changes nothing but the random
stream (for a cardinal heading). -/
theorem dig_random_go_fail {pos hd : Vector} (hc : Cardinal hd) :
    ∀ (t : Nat) (s : DigState), (dig_random_go pos hd t s).1 = false →
      (dig_random_go pos hd t s).2.grid = s.grid ∧
      (dig_random_go pos hd t s).2.doorways = s.doorways ∧
      (dig_random_go pos hd t s).2.oob = s.oob ∧
      (dig_random_go pos hd t s).2.size_x = s.size_x ∧
      (dig_random_go pos hd t s).2.size_y = s.size_y := by
  intro t
  induction t with
  | zero => intro s _; exact ⟨rfl, rfl, rfl, rfl, rfl⟩
  | succ t ih =>
    intro s h
    unfold dig_random_go at h ⊢
    rcases h1 : rand_range 0 1 s with ⟨c, s1⟩
    have e1 : s1.grid = s.grid ∧ s1.doorways = s.doorways ∧ s1.oob = s.oob ∧
        s1.size_x = s.size_x ∧ s1.size_y = s.size_y := by
      rw [show s1 = (rand_range 0 1 s).2 from by rw [h1]]
      exact ⟨rfl, rfl, rfl, rfl, rfl⟩
    simp only [h1] at h ⊢
    by_cases hcor : c = 1
    · simp only [hcor, eq_self_iff_true, if_true] at h ⊢
      rcases h2 : dig_corridor s1 pos hd with ⟨succ, s2⟩
      simp only [h2] at h ⊢
      cases succ
      · simp only [if_neg (by simp : ¬ false = true)] at h ⊢
        obtain ⟨f1, f2, f3, f4, f5⟩ := ih s2 h
        have ef : s2.grid = s1.grid ∧ s2.doorways = s1.doorways ∧
            s2.size_x = s1.size_x ∧ s2.size_y = s1.size_y ∧ s2.oob = s1.oob := by
          have hfail := dig_corridor_fail_state
            (show (dig_corridor s1 pos hd).1 = false from by rw [h2])
          rw [h2] at hfail
          exact ⟨hfail.1, hfail.2.1, hfail.2.2.1, hfail.2.2.2.1,
            hfail.2.2.2.2 hc⟩
        exact ⟨by rw [f1, ef.1, e1.1], by rw [f2, ef.2.1, e1.2.1],
          by rw [f3, ef.2.2.2.2, e1.2.2.1], by rw [f4, ef.2.2.1, e1.2.2.2.1],
          by rw [f5, ef.2.2.2.1, e1.2.2.2.2]⟩
      · simp at h
    · simp only [hcor, if_false] at h ⊢
      rcases h2 : dig_room s1 pos hd with ⟨succ, s2⟩
      simp only [h2] at h ⊢
      cases succ
      · simp only [if_neg (by simp : ¬ false = true)] at h ⊢
        obtain ⟨f1, f2, f3, f4, f5⟩ := ih s2 h
        have ef : s2.grid = s1.grid ∧ s2.doorways = s1.doorways ∧
            s2.oob = s1.oob ∧ s2.size_x = s1.size_x ∧ s2.size_y = s1.size_y := by
          have hfail := dig_room_fail_state
            (show (dig_room s1 pos hd).1 = false from by rw [h2])
          rw [h2] at hfail
          exact hfail
        exact ⟨by rw [f1, ef.1, e1.1], by rw [f2, ef.2.1, e1.2.1],
          by rw [f3, ef.2.2.1, e1.2.2.1], by rw [f4, ef.2.2.2.1, e1.2.2.2.1],
          by rw [f5, ef.2.2.2.2, e1.2.2.2.2]⟩
      · simp at h

/-- A successful `dig_random` retry loop is one successful generator call,
made from a state that differs from the entry state only in the random
stream. -/
theorem dig_random_go_succ {pos hd : Vector} (hc : Cardinal hd) :
    ∀ (t : Nat) (s : DigState), (dig_random_go pos hd t s).1 = true →
      ∃ s' : DigState, s'.grid = s.grid ∧ s'.doorways = s.doorways ∧
        s'.oob = s.oob ∧ s'.size_x = s.size_x ∧ s'.size_y = s.size_y ∧
        (((dig_room s' pos hd).1 = true ∧
          (dig_random_go pos hd t s).2 = (dig_room s' pos hd).2) ∨
         ((dig_corridor s' pos hd).1 = true ∧
          (dig_random_go pos hd t s).2 = (dig_corridor s' pos hd).2)) := by
  intro t
  induction t with
  | zero => intro s h; simp [dig_random_go] at h
  | succ t ih =>
    intro s h
    unfold dig_random_go at h ⊢
    rcases h1 : rand_range 0 1 s with ⟨c, s1⟩
    have e1 : s1.grid = s.grid ∧ s1.doorways = s.doorways ∧ s1.oob = s.oob ∧
        s1.size_x = s.size_x ∧ s1.size_y = s.size_y := by
      rw [show s1 = (rand_range 0 1 s).2 from by rw [h1]]
      exact ⟨rfl, rfl, rfl, rfl, rfl⟩
    simp only [h1] at h ⊢
    by_cases hcor : c = 1
    · simp only [hcor, eq_self_iff_true, if_true] at h ⊢
      rcases h2 : dig_corridor s1 pos hd with ⟨succ, s2⟩
      simp only [h2] at h ⊢
      cases succ
      · simp only [if_neg (by simp : ¬ false = true)] at h ⊢
        have ef : s2.grid = s1.grid ∧ s2.doorways = s1.doorways ∧
            s2.size_x = s1.size_x ∧ s2.size_y = s1.size_y ∧ s2.oob = s1.oob := by
          have hfail := dig_corridor_fail_state
            (show (dig_corridor s1 pos hd).1 = false from by rw [h2])
          rw [h2] at hfail
          exact ⟨hfail.1, hfail.2.1, hfail.2.2.1, hfail.2.2.2.1,
            hfail.2.2.2.2 hc⟩
        obtain ⟨s', p1, p2, p3, p4, p5, hcase⟩ := ih s2 h
        exact ⟨s', by rw [p1, ef.1, e1.1], by rw [p2, ef.2.1, e1.2.1],
          by rw [p3, ef.2.2.2.2, e1.2.2.1], by rw [p4, ef.2.2.1, e1.2.2.2.1],
          by rw [p5, ef.2.2.2.1, e1.2.2.2.2], hcase⟩
      · refine ⟨s1, e1.1, e1.2.1, e1.2.2.1, e1.2.2.2.1, e1.2.2.2.2,
          Or.inr ⟨by rw [h2], ?_⟩⟩
        simp
        rw [h2]
    · simp only [hcor, if_false] at h ⊢
      rcases h2 : dig_room s1 pos hd with ⟨succ, s2⟩
      simp only [h2] at h ⊢
      cases succ
      · simp only [if_neg (by simp : ¬ false = true)] at h ⊢
        have ef : s2.grid = s1.grid ∧ s2.doorways = s1.doorways ∧
            s2.oob = s1.oob ∧ s2.size_x = s1.size_x ∧ s2.size_y = s1.size_y := by
          have hfail := dig_room_fail_state
            (show (dig_room s1 pos hd).1 = false from by rw [h2])
          rw [h2] at hfail
          exact hfail
        obtain ⟨s', p1, p2, p3, p4, p5, hcase⟩ := ih s2 h
        exact ⟨s', by rw [p1, ef.1, e1.1], by rw [p2, ef.2.1, e1.2.1],
          by rw [p3, ef.2.2.1, e1.2.2.1], by rw [p4, ef.2.2.2.1, e1.2.2.2.1],
          by rw [p5, ef.2.2.2.2, e1.2.2.2.2], hcase⟩
      · refine ⟨s1, e1.1, e1.2.1, e1.2.2.1, e1.2.2.2.1, e1.2.2.2.2,
          Or.inl ⟨by rw [h2], ?_⟩⟩
        simp
        rw [h2]

/-! ## Border and worklist invariants of the drain loop -/

/-- Cell `p` lies inside a `w × h` grid. -/
def InGrid (w h : Int) (p : Vector) : Prop :=
  0 ≤ p.x ∧ 0 ≤ p.y ∧ p.x < w ∧ p.y < h

instance (w h : Int) (p : Vector) : Decidable (InGrid w h p) := by
  unfold InGrid; infer_instance

/-- Cell `p` is an in-grid border cell of a `w × h` grid. -/
def BorderCell (w h : Int) (p : Vector) : Prop :=
  InGrid w h p ∧ (p.x = 0 ∨ p.x = w - 1 ∨ p.y = 0 ∨ p.y = h - 1)

instance (w h : Int) (p : Vector) : Decidable (BorderCell w h p) := by
  unfold BorderCell; infer_instance

/-- The initial entrance cell `(size_x/2, size_y-1)` written by the
seeding step. -/
def entranceCell (w h : Int) : Vector := ⟨w / 2, h - 1⟩

/-- A doorway at `l` heading `g` whose heading does not point inward from
any border line that `l` lies on: growth from such a doorway always
fails, so it can never write a floor or door tile on the border. -/
def NoGrow (w h : Int) (l g : Vector) : Prop :=
  (l.x = 0 → g ≠ ⟨1, 0⟩) ∧ (l.x = w - 1 → g ≠ ⟨-1, 0⟩) ∧
  (l.y = 0 → g ≠ ⟨0, 1⟩) ∧ (l.y = h - 1 → g ≠ ⟨0, -1⟩)

instance (w h : Int) (l g : Vector) : Decidable (NoGrow w h l g) := by
  unfold NoGrow; infer_instance

/-- Worklist invariant maintained by the drain loop: the grid sizes are
fixed at `w × h`, and every pending doorway has a cardinal heading, has
`has_door = true` (the corridor seal-and-push branch being unreachable),
and, if it sits on the grid border, is either the initial entrance or
cannot grow. -/
def StateCore (w h : Int) (s : DigState) : Prop :=
  s.size_x = w ∧ s.size_y = h ∧
  ∀ d ∈ s.doorways, Cardinal d.heading ∧ d.has_door = true ∧
    (BorderCell w h d.location →
      d.location = entranceCell w h ∨ NoGrow w h d.location d.heading)

/-- Every pending doorway's location is inside the grid. -/
def LocOK (w h : Int) (s : DigState) : Prop :=
  ∀ d ∈ s.doorways, InGrid w h d.location

/-- Border invariant of the grid: no in-grid border cell is floor, and an
in-grid border cell is a door only at the initial entrance. -/
def GridOK (w h : Int) (g : Vector → Tile) : Prop :=
  ∀ p, BorderCell w h p →
    g p ≠ Tile.floor ∧ (g p = Tile.door → p = entranceCell w h)

/-- A heading whose one-step-back cell is in the grid cannot point inward
from any border line through its location. -/
theorem NoGrow_of_inward {w h : Int} {p g : Vector}
    (hin : InGrid w h (p - g)) : NoGrow w h p g := by
  obtain ⟨h1, h2, h3, h4⟩ := hin
  simp only [Vector.sub_def] at h1 h2 h3 h4
  refine ⟨fun he hg => ?_, fun he hg => ?_, fun he hg => ?_, fun he hg => ?_⟩ <;>
    subst hg <;> simp only [] at h1 h2 h3 h4 <;> omega

/-- The rotations of a cardinal heading are cardinal. -/
theorem cardinal_rot {v : Vector} (hc : Cardinal v) :
    Cardinal v.left ∧ Cardinal v.right := by
  rcases hc with rfl | rfl | rfl | rfl <;>
    exact ⟨by simp [Cardinal, Vector.left], by simp [Cardinal, Vector.right]⟩

/-- A cell whose four axis neighbors are all in the grid is not a border
cell. -/
theorem interior_not_border {w h : Int} {hd : Vector} (hc : Cardinal hd)
    {p : Vector} (h1 : InGrid w h (p + hd)) (h2 : InGrid w h (p - hd))
    (h3 : InGrid w h (p + hd.right)) (h4 : InGrid w h (p - hd.right)) :
    ¬ BorderCell w h p := by
  rintro ⟨hin, hb⟩
  rcases hc with rfl | rfl | rfl | rfl <;>
    · simp only [InGrid, Vector.add_def, Vector.sub_def, Vector.right]
        at h1 h2 h3 h4
      rcases hb with hb | hb | hb | hb <;> omega

theorem Vector.add_sub_cancel_v (a b : Vector) : a + b - b = a := by
  rw [Vector.ext_iff2]
  constructor <;> simp [Vector.add_def, Vector.sub_def]

/-- Stepping back against `v.left` is stepping along `v.right`. -/
theorem Vector.sub_rotl_eq_add_rotr (p v : Vector) :
    p - v.left = p + v.right := by
  rw [Vector.ext_iff2]
  constructor <;>
    · simp only [Vector.sub_def, Vector.add_def, Vector.left, Vector.right]
      ring

/-- Footprint cells in corridor normal form around the corner. -/
theorem roomCell_nf (c hd : Vector) (cc : Nat × Nat) :
    roomCell c hd cc = nf c hd (cc.2 : Int) (cc.1 : Int) := by
  rw [Vector.ext_iff2]
  constructor <;>
    · simp only [roomCell, nf, Vector.add_def, Vector.mul_def, Vector.right]
      ring

/-- For a cardinal heading the footprint parametrization is injective. -/
theorem roomCell_inj_cc {hd : Vector} (hc : Cardinal hd) (c : Vector)
    {a b a2 b2 : Nat} :
    roomCell c hd (a, b) = roomCell c hd (a2, b2) ↔ a = a2 ∧ b = b2 := by
  rw [roomCell_nf, roomCell_nf]
  simp only []
  rw [nf_inj hc]
  constructor
  · rintro ⟨hy, hx⟩
    exact ⟨by exact_mod_cast hx, by exact_mod_cast hy⟩
  · rintro ⟨rfl, rfl⟩
    exact ⟨rfl, rfl⟩

theorem roomCell_shift_r (c hd : Vector) (a b : Nat) :
    roomCell c hd (a + 1, b) = roomCell c hd (a, b) + hd.right := by
  rw [Vector.ext_iff2]
  constructor <;>
    · simp only [roomCell, Vector.add_def, Vector.mul_def, Vector.right]
      push_cast
      ring

theorem roomCell_shift_d (c hd : Vector) (a b : Nat) :
    roomCell c hd (a, b + 1) = roomCell c hd (a, b) + hd := by
  rw [Vector.ext_iff2]
  constructor <;>
    · simp only [roomCell, Vector.add_def, Vector.mul_def, Vector.right]
      push_cast
      ring

/-! ## Termination measure -/

/-- Finite set of all in-grid cells of a `w × h` grid. -/
def cellFinset (w h : Int) : Finset Vector :=
  ((Finset.Icc 0 (w - 1)) ×ˢ (Finset.Icc 0 (h - 1))).image
    (fun q => (⟨q.1, q.2⟩ : Vector))

theorem mem_cellFinset {w h : Int} {p : Vector} :
    p ∈ cellFinset w h ↔ InGrid w h p := by
  unfold cellFinset InGrid
  simp only [Finset.mem_image, Finset.mem_product, Finset.mem_Icc]
  constructor
  · rintro ⟨⟨a, b⟩, ⟨⟨ha0, ha1⟩, ⟨hb0, hb1⟩⟩, rfl⟩
    refine ⟨?_, ?_, ?_, ?_⟩ <;> simp only [] <;> omega
  · rintro ⟨h1, h2, h3, h4⟩
    exact ⟨(p.x, p.y), ⟨⟨h1, by omega⟩, ⟨h2, by omega⟩⟩, by cases p; rfl⟩

/-- Number of in-grid cells that `is_wall` counts as wall-like. -/
def wallCount (w h : Int) (g : Vector → Tile) : Nat :=
  ((cellFinset w h).filter (fun p => wallLike (g p) = true)).card

/-- Termination measure of the drain loop: pending doorways plus wall-like
in-grid cells. -/
def loopMeasure (w h : Int) (s : DigState) : Nat :=
  s.doorways.length + wallCount w h s.grid

theorem wallCount_le (w h : Int) (g : Vector → Tile) :
    wallCount w h g ≤ w.toNat * h.toNat := by
  have h1 : wallCount w h g ≤ (cellFinset w h).card :=
    Finset.card_filter_le _ _
  have h2 : (cellFinset w h).card ≤
      ((Finset.Icc (0 : Int) (w - 1)) ×ˢ (Finset.Icc (0 : Int) (h - 1))).card :=
    Finset.card_image_le
  rw [Finset.card_product, Int.card_Icc, Int.card_Icc] at h2
  have h3 : (w - 1 + 1 - 0).toNat = w.toNat := by omega
  have h4 : (h - 1 + 1 - 0).toNat = h.toNat := by omega
  rw [h3, h4] at h2
  omega

/-- If a grid update never turns a non-wall-like in-grid cell wall-like and
kills wall-likeness on the cells of `S`, the wall count drops by at least
`S.card`. -/
theorem wallCount_drop {w h : Int} {g g2 : Vector → Tile} (S : Finset Vector)
    (hSsub : S ⊆ cellFinset w h)
    (hSold : ∀ p ∈ S, wallLike (g p) = true)
    (hSnew : ∀ p ∈ S, wallLike (g2 p) = false)
    (hmono : ∀ p, InGrid w h p → wallLike (g2 p) = true →
      wallLike (g p) = true) :
    wallCount w h g2 + S.card ≤ wallCount w h g := by
  unfold wallCount
  have hsub2 : (cellFinset w h).filter (fun p => wallLike (g2 p) = true) ⊆
      ((cellFinset w h).filter (fun p => wallLike (g p) = true)) \ S := by
    intro p hp
    rw [Finset.mem_filter] at hp
    obtain ⟨hpc, hpw⟩ := hp
    rw [Finset.mem_sdiff, Finset.mem_filter]
    refine ⟨⟨hpc, hmono p (mem_cellFinset.mp hpc) hpw⟩, fun hpS => ?_⟩
    rw [hSnew p hpS] at hpw
    exact Bool.false_ne_true hpw
  have hSsubf : S ⊆ (cellFinset w h).filter (fun p => wallLike (g p) = true) := by
    intro p hp
    rw [Finset.mem_filter]
    exact ⟨hSsub hp, hSold p hp⟩
  have hc1 := Finset.card_le_card hsub2
  rw [Finset.card_sdiff hSsubf] at hc1
  have hc2 := Finset.card_le_card hSsubf
  omega

/-- From a border entrance with a non-inward cardinal heading, the corridor
generator always fails: its first center cell misses the strict interior. -/
theorem corridor_nogrow_fail {w h : Int} {s : DigState} {e g : Vector}
    (hsx : s.size_x = w) (hsy : s.size_y = h) (hc : Cardinal g)
    (hb : BorderCell w h e) (hng : NoGrow w h e g) :
    (dig_corridor s e g).1 = false := by
  by_contra hfail
  have hsucc : (dig_corridor s e g).1 = true := by
    cases hb2 : (dig_corridor s e g).1
    · exact absurd hb2 hfail
    · rfl
  obtain ⟨k, hk2, hcent, _⟩ := dig_corridor_succ_spec hc hsucc
  obtain ⟨a1, a2, a3, a4⟩ := (hcent 1 le_rfl (by omega)).1
  rw [hsx] at a3
  rw [hsy] at a4
  obtain ⟨⟨e1, e2, e3, e4⟩, hbd⟩ := hb
  obtain ⟨n1, n2, n3, n4⟩ := hng
  simp only [Vector.add_def, Vector.mul_def] at a1 a2 a3 a4
  rcases hc with rfl | rfl | rfl | rfl
  · have hn : ¬ e.y = h - 1 := fun hh => (n4 hh) rfl
    simp only [] at a1 a2 a3 a4
    rcases hbd with hb1 | hb1 | hb1 | hb1 <;> omega
  · have hn : ¬ e.y = 0 := fun hh => (n3 hh) rfl
    simp only [] at a1 a2 a3 a4
    rcases hbd with hb1 | hb1 | hb1 | hb1 <;> omega
  · have hn : ¬ e.x = w - 1 := fun hh => (n2 hh) rfl
    simp only [] at a1 a2 a3 a4
    rcases hbd with hb1 | hb1 | hb1 | hb1 <;> omega
  · have hn : ¬ e.x = 0 := fun hh => (n1 hh) rfl
    simp only [] at a1 a2 a3 a4
    rcases hbd with hb1 | hb1 | hb1 | hb1 <;> omega

/-- From a border entrance with a non-inward cardinal heading, the room
generator always fails: some footprint cell falls outside the grid. -/
theorem room_nogrow_fail {w h : Int} {s : DigState} {e g : Vector}
    (hsx : s.size_x = w) (hsy : s.size_y = h) (hc : Cardinal g)
    (hb : BorderCell w h e) (hng : NoGrow w h e g) :
    (dig_room s e g).1 = false := by
  by_contra hfail
  have hsucc : (dig_room s e g).1 = true := by
    cases hb2 : (dig_room s e g).1
    · exact absurd hb2 hfail
    · rfl
  obtain ⟨sx, sy, eo, q1, q2, q3, q4, q5, q6, hscan, _⟩ :=
    dig_room_succ_spec hsucc
  have hmemA : ((eo.toNat, 1) : Nat × Nat) ∈
      rowMajor (sx + 2).toNat (sy + 2).toNat := by
    rw [mem_rowMajor]
    refine ⟨?_, ?_⟩ <;> simp only [] <;> omega
  have hmemB : (((sx + 1).toNat, 0) : Nat × Nat) ∈
      rowMajor (sx + 2).toNat (sy + 2).toNat := by
    rw [mem_rowMajor]
    refine ⟨?_, ?_⟩ <;> simp only [] <;> omega
  have hmemC : ((0, 0) : Nat × Nat) ∈
      rowMajor (sx + 2).toNat (sy + 2).toNat := by
    rw [mem_rowMajor]
    refine ⟨?_, ?_⟩ <;> simp only [] <;> omega
  obtain ⟨a1, a2, a3, a4⟩ := (hscan _ hmemA).1
  obtain ⟨b1, b2, b3, b4⟩ := (hscan _ hmemB).1
  obtain ⟨c1, c2, c3, c4⟩ := (hscan _ hmemC).1
  rw [hsx] at a3 b3 c3
  rw [hsy] at a4 b4 c4
  obtain ⟨⟨e1, e2, e3, e4⟩, hbd⟩ := hb
  obtain ⟨n1, n2, n3, n4⟩ := hng
  simp only [roomCell, Vector.add_def, Vector.mul_def, Vector.left,
    Vector.right] at a1 a2 a3 a4 b1 b2 b3 b4 c1 c2 c3 c4
  rcases hc with rfl | rfl | rfl | rfl
  · have hn : ¬ e.y = h - 1 := fun hh => (n4 hh) rfl
    simp only [] at a1 a2 a3 a4 b1 b2 b3 b4 c1 c2 c3 c4
    rcases hbd with hb1 | hb1 | hb1 | hb1 <;> omega
  · have hn : ¬ e.y = 0 := fun hh => (n3 hh) rfl
    simp only [] at a1 a2 a3 a4 b1 b2 b3 b4 c1 c2 c3 c4
    rcases hbd with hb1 | hb1 | hb1 | hb1 <;> omega
  · have hn : ¬ e.x = w - 1 := fun hh => (n2 hh) rfl
    simp only [] at a1 a2 a3 a4 b1 b2 b3 b4 c1 c2 c3 c4
    rcases hbd with hb1 | hb1 | hb1 | hb1 <;> omega
  · have hn : ¬ e.x = 0 := fun hh => (n1 hh) rfl
    simp only [] at a1 a2 a3 a4 b1 b2 b3 b4 c1 c2 c3 c4
    rcases hbd with hb1 | hb1 | hb1 | hb1 <;> omega

/-! ### Normal-form bookkeeping for footprint cells -/

theorem nf_zero (c g : Vector) : nf c g 0 0 = c := by
  rw [Vector.ext_iff2]
  constructor <;>
    · simp only [nf, Vector.add_def, Vector.mul_def, Vector.right]
      ring

theorem nf_r_only (c g : Vector) (a : Int) :
    c + Vector.right g * a = nf c g 0 a := by
  rw [Vector.ext_iff2]
  constructor <;>
    · simp only [nf, Vector.add_def, Vector.mul_def, Vector.right]
      ring

theorem nf_swap (c g : Vector) (a b : Int) :
    c + Vector.right g * a + g * b = nf c g b a := by
  rw [Vector.ext_iff2]
  constructor <;>
    · simp only [nf, Vector.add_def, Vector.mul_def, Vector.right]
      ring

theorem nf_plus_hd (c g : Vector) (a b : Int) :
    nf c g a b + g = nf c g (a + 1) b := by
  rw [Vector.ext_iff2]
  constructor <;>
    · simp only [nf, Vector.add_def, Vector.mul_def, Vector.right]
      ring

theorem nf_minus_hd (c g : Vector) (a b : Int) :
    nf c g a b - g = nf c g (a - 1) b := by
  rw [Vector.ext_iff2]
  constructor <;>
    · simp only [nf, Vector.add_def, Vector.sub_def, Vector.mul_def,
        Vector.right]
      ring

theorem nf_plus_right (c g : Vector) (a b : Int) :
    nf c g a b + Vector.right g = nf c g a (b + 1) := by
  rw [Vector.ext_iff2]
  constructor <;>
    · simp only [nf, Vector.add_def, Vector.mul_def, Vector.right]
      ring

theorem nf_minus_right (c g : Vector) (a b : Int) :
    nf c g a b - Vector.right g = nf c g a (b - 1) := by
  rw [Vector.ext_iff2]
  constructor <;>
    · simp only [nf, Vector.add_def, Vector.sub_def, Vector.mul_def,
        Vector.right]
      ring

/-- The entrance in corner normal form: index `(0, eo)`. -/
theorem nf_eo (e g : Vector) (eo : Int) :
    nf (e + Vector.left g * eo) g 0 eo = e := by
  rw [Vector.ext_iff2]
  constructor <;>
    · simp only [nf, Vector.add_def, Vector.mul_def, Vector.left,
        Vector.right]
      ring

/-- Interior cells in corner normal form. -/
theorem carveCell_nf (c g : Vector) (cc : Nat × Nat) :
    carveCell c g cc = nf c g ((cc.2 : Int) + 1) ((cc.1 : Int) + 1) := by
  rw [Vector.ext_iff2]
  constructor <;>
    · simp only [carveCell, nf, Vector.add_def, Vector.mul_def, Vector.right]
      push_cast
      ring

/-- Everything the drain-loop invariants need from a successful `dig_room`
call: sizes and the oob flag are preserved, exactly three new doorways are
pushed (cardinal heading, `has_door = true`, in-grid, non-inward), border
cells other than the entrance only ever receive wall-like tiles, the
entrance becomes a door, and the wall-like cell count drops by at least
three. -/
theorem dig_room_invariants {w h : Int} {s : DigState} {e g : Vector}
    (hsx : s.size_x = w) (hsy : s.size_y = h) (hc : Cardinal g)
    (hsucc : (dig_room s e g).1 = true) :
    (dig_room s e g).2.size_x = w ∧
    (dig_room s e g).2.size_y = h ∧
    (dig_room s e g).2.oob = s.oob ∧
    (∃ ds : List Doorway, (dig_room s e g).2.doorways = s.doorways ++ ds ∧
      ds.length = 3 ∧
      ∀ dd ∈ ds, Cardinal dd.heading ∧ dd.has_door = true ∧
        InGrid w h dd.location ∧ NoGrow w h dd.location dd.heading) ∧
    (∀ p, BorderCell w h p → p ≠ e →
      wallLike ((dig_room s e g).2.grid p) = true ∨
      (dig_room s e g).2.grid p = s.grid p) ∧
    (dig_room s e g).2.grid e = Tile.door ∧
    wallCount w h (dig_room s e g).2.grid + 3 ≤ wallCount w h s.grid := by
  obtain ⟨sx, sy, eo, q1, q2, q3, q4, q5, q6, hscan, hgrid, hoob, hszx, hszy,
    r1, c1, r2, hr1a, hr1b, hc1a, hc1b, hr2a, hr2b, hdw⟩ :=
    dig_room_succ_spec hsucc
  have conv : ∀ v, is_in_bounds_or_border s v → InGrid w h v := by
    intro v hv
    obtain ⟨x1, x2, x3, x4⟩ := hv
    exact ⟨x1, x2, hsx ▸ x3, hsy ▸ x4⟩
  have hfp : ∀ a b : Int, 0 ≤ a → a ≤ sx + 1 → 0 ≤ b → b ≤ sy + 1 →
      InGrid w h (nf (e + Vector.left g * eo) g b a) ∧
      (wallLike (s.grid (nf (e + Vector.left g * eo) g b a)) = true ∨
        nf (e + Vector.left g * eo) g b a = e) := by
    intro a b ha0 ha1 hb0 hb1
    have hmem : ((a.toNat, b.toNat) : Nat × Nat) ∈
        rowMajor (sx + 2).toNat (sy + 2).toNat := by
      rw [mem_rowMajor]
      refine ⟨?_, ?_⟩ <;> simp only [] <;> omega
    have hh := hscan _ hmem
    rw [roomCell_cxy _ _ ha0 hb0, nf_swap] at hh
    exact ⟨conv _ hh.1, hh.2⟩
  have hne_e : ∀ a b : Int, ¬ (b = 0 ∧ a = eo) →
      nf (e + Vector.left g * eo) g b a ≠ e := by
    intro a b hab hcon
    have hcon2 : nf (e + Vector.left g * eo) g b a =
        nf (e + Vector.left g * eo) g 0 eo := by
      rw [nf_eo]
      exact hcon
    rw [nf_inj hc] at hcon2
    exact hab ⟨hcon2.1, hcon2.2⟩
  refine ⟨by rw [hszx, hsx], by rw [hszy, hsy], hoob, ?_, ?_, ?_, ?_⟩
  · -- the three pushed doorways
    refine ⟨_, hdw, rfl, ?_⟩
    intro dd hdd
    simp only [List.mem_cons, List.not_mem_nil, or_false] at hdd
    rcases hdd with rfl | rfl | rfl
    · refine ⟨(cardinal_rot hc).1, rfl, ?_, ?_⟩
      · show InGrid w h (e + Vector.left g * eo + g * r1)
        rw [nf_center]
        exact (hfp 0 r1 le_rfl (by omega) (by omega) (by omega)).1
      · show NoGrow w h (e + Vector.left g * eo + g * r1) (Vector.left g)
        apply NoGrow_of_inward
        rw [Vector.sub_rotl_eq_add_rotr, nf_center, nf_plus_right]
        exact (hfp (0 + 1) r1 (by omega) (by omega) (by omega) (by omega)).1
    · refine ⟨hc, rfl, ?_, ?_⟩
      · show InGrid w h (nf (e + Vector.left g * eo) g (sy + 1) c1)
        exact (hfp c1 (sy + 1) (by omega) (by omega) (by omega) (by omega)).1
      · show NoGrow w h (nf (e + Vector.left g * eo) g (sy + 1) c1) g
        apply NoGrow_of_inward
        rw [nf_minus_hd]
        exact (hfp c1 (sy + 1 - 1) (by omega) (by omega) (by omega)
          (by omega)).1
    · refine ⟨(cardinal_rot hc).2, rfl, ?_, ?_⟩
      · show InGrid w h (e + Vector.left g * eo + Vector.right g * (sx + 1) +
          g * r2)
        rw [nf_swap]
        exact (hfp (sx + 1) r2 (by omega) (by omega) (by omega) (by omega)).1
      · show NoGrow w h (e + Vector.left g * eo + Vector.right g * (sx + 1) +
          g * r2) (Vector.right g)
        apply NoGrow_of_inward
        rw [nf_swap, nf_minus_right]
        exact (hfp (sx + 1 - 1) r2 (by omega) (by omega) (by omega)
          (by omega)).1
  · -- border cells other than the entrance
    intro p hbp hpe
    rw [hgrid p, if_neg hpe]
    by_cases hint : p ∈ roomInteriorList (e + Vector.left g * eo) g sx sy
    · exfalso
      unfold roomInteriorList at hint
      obtain ⟨cc, hcc, rfl⟩ := List.mem_map.mp hint
      rw [mem_rowMajor] at hcc
      obtain ⟨hcc1, hcc2⟩ := hcc
      rw [carveCell_nf] at hbp
      refine interior_not_border hc ?_ ?_ ?_ ?_ hbp
      · rw [nf_plus_hd]
        exact (hfp _ _ (by omega) (by omega) (by omega) (by omega)).1
      · rw [nf_minus_hd]
        exact (hfp _ _ (by omega) (by omega) (by omega) (by omega)).1
      · rw [nf_plus_right]
        exact (hfp _ _ (by omega) (by omega) (by omega) (by omega)).1
      · rw [nf_minus_right]
        exact (hfp _ _ (by omega) (by omega) (by omega) (by omega)).1
    · rw [if_neg hint]
      by_cases hcor : p ∈ roomCornerList (e + Vector.left g * eo) g sx sy
      · rw [if_pos hcor]
        left
        rfl
      · rw [if_neg hcor]
        by_cases hfpm : p ∈ roomFpList (e + Vector.left g * eo) g sx sy
        · rw [if_pos hfpm]
          left
          rfl
        · rw [if_neg hfpm]
          right
          rfl
  · rw [hgrid e, if_pos rfl]
  · -- wall count drops by at least three
    have hmemI : ∀ i : Nat, i < 3 →
        carveCell (e + Vector.left g * eo) g (i, 0) ∈
          roomInteriorList (e + Vector.left g * eo) g sx sy := by
      intro i hi
      unfold roomInteriorList
      refine List.mem_map.mpr ⟨(i, 0), ?_, rfl⟩
      rw [mem_rowMajor]
      refine ⟨?_, ?_⟩ <;> simp only [] <;> omega
    have hInG : ∀ i : Nat, i < 3 →
        InGrid w h (carveCell (e + Vector.left g * eo) g (i, 0)) := by
      intro i hi
      rw [carveCell_nf]
      simp only []
      exact (hfp _ _ (by omega) (by omega) (by omega) (by omega)).1
    have hOld : ∀ i : Nat, i < 3 →
        wallLike (s.grid (carveCell (e + Vector.left g * eo) g (i, 0))) =
          true := by
      intro i hi
      rw [carveCell_nf]
      simp only []
      rcases (hfp ((i : Int) + 1) (((0 : Nat) : Int) + 1) (by omega)
        (by omega) (by omega) (by omega)).2 with hw | hcon
      · exact hw
      · exact absurd hcon (hne_e _ _ (by rintro ⟨hx1, hx2⟩; omega))
    have hNew : ∀ i : Nat, i < 3 →
        wallLike ((dig_room s e g).2.grid
          (carveCell (e + Vector.left g * eo) g (i, 0))) = false := by
      intro i hi
      rw [hgrid]
      rw [if_neg (by
        rw [carveCell_nf]
        simp only []
        exact hne_e _ _ (by rintro ⟨hx1, hx2⟩; omega))]
      rw [if_pos (hmemI i hi)]
      rfl
    have hne01 : carveCell (e + Vector.left g * eo) g (0, 0) ≠
        carveCell (e + Vector.left g * eo) g (1, 0) := by
      intro hcon
      rw [carveCell_nf, carveCell_nf, nf_inj hc] at hcon
      simp only [] at hcon
      omega
    have hne02 : carveCell (e + Vector.left g * eo) g (0, 0) ≠
        carveCell (e + Vector.left g * eo) g (2, 0) := by
      intro hcon
      rw [carveCell_nf, carveCell_nf, nf_inj hc] at hcon
      simp only [] at hcon
      omega
    have hne12 : carveCell (e + Vector.left g * eo) g (1, 0) ≠
        carveCell (e + Vector.left g * eo) g (2, 0) := by
      intro hcon
      rw [carveCell_nf, carveCell_nf, nf_inj hc] at hcon
      simp only [] at hcon
      omega
    have hcard : ({carveCell (e + Vector.left g * eo) g (0, 0),
        carveCell (e + Vector.left g * eo) g (1, 0),
        carveCell (e + Vector.left g * eo) g (2, 0)} : Finset Vector).card
        = 3 := by
      rw [Finset.card_insert_of_not_mem (by
        simp only [Finset.mem_insert, Finset.mem_singleton]
        rintro (hcon | hcon)
        · exact hne01 hcon
        · exact hne02 hcon)]
      rw [Finset.card_insert_of_not_mem (by
        simp only [Finset.mem_singleton]
        exact hne12)]
      rw [Finset.card_singleton]
    have hdrop := wallCount_drop
      ({carveCell (e + Vector.left g * eo) g (0, 0),
        carveCell (e + Vector.left g * eo) g (1, 0),
        carveCell (e + Vector.left g * eo) g (2, 0)} : Finset Vector)
      (by
        intro p hp
        simp only [Finset.mem_insert, Finset.mem_singleton] at hp
        rw [mem_cellFinset]
        rcases hp with rfl | rfl | rfl
        · exact hInG 0 (by omega)
        · exact hInG 1 (by omega)
        · exact hInG 2 (by omega))
      (by
        intro p hp
        simp only [Finset.mem_insert, Finset.mem_singleton] at hp
        rcases hp with rfl | rfl | rfl
        · exact hOld 0 (by omega)
        · exact hOld 1 (by omega)
        · exact hOld 2 (by omega))
      (by
        intro p hp
        simp only [Finset.mem_insert, Finset.mem_singleton] at hp
        rcases hp with rfl | rfl | rfl
        · exact hNew 0 (by omega)
        · exact hNew 1 (by omega)
        · exact hNew 2 (by omega))
      (by
        intro p hpin hpw
        rw [hgrid p] at hpw
        by_cases h1 : p = e
        · rw [if_pos h1] at hpw
          exact absurd hpw (by decide)
        · rw [if_neg h1] at hpw
          by_cases h2 : p ∈ roomInteriorList (e + Vector.left g * eo) g sx sy
          · rw [if_pos h2] at hpw
            exact absurd hpw (by decide)
          · rw [if_neg h2] at hpw
            by_cases h3 : p ∈ roomCornerList (e + Vector.left g * eo) g sx sy
            · unfold roomCornerList at h3
              simp only [List.mem_cons, List.not_mem_nil, or_false] at h3
              rcases h3 with rfl | rfl | rfl | rfl
              · rw [show e + Vector.left g * eo =
                  nf (e + Vector.left g * eo) g 0 0 from (nf_zero _ g).symm]
                rcases (hfp 0 0 le_rfl (by omega) le_rfl (by omega)).2 with
                  hw | hcon
                · exact hw
                · exact absurd hcon (hne_e _ _ (by rintro ⟨hx1, hx2⟩; omega))
              · rw [nf_r_only]
                rcases (hfp (sx + 1) 0 (by omega) (by omega) le_rfl
                  (by omega)).2 with hw | hcon
                · exact hw
                · exact absurd hcon (hne_e _ _ (by rintro ⟨hx1, hx2⟩; omega))
              · rw [nf_center]
                rcases (hfp 0 (sy + 1) le_rfl (by omega) (by omega)
                  (by omega)).2 with hw | hcon
                · exact hw
                · exact absurd hcon (hne_e _ _ (by rintro ⟨hx1, hx2⟩; omega))
              · rw [nf_swap]
                rcases (hfp (sx + 1) (sy + 1) (by omega) (by omega)
                  (by omega) (by omega)).2 with hw | hcon
                · exact hw
                · exact absurd hcon (hne_e _ _ (by rintro ⟨hx1, hx2⟩; omega))
            · rw [if_neg h3] at hpw
              by_cases h4 : p ∈ roomFpList (e + Vector.left g * eo) g sx sy
              · unfold roomFpList at h4
                obtain ⟨cc, hcc, rfl⟩ := List.mem_map.mp h4
                rw [mem_rowMajor] at hcc
                rw [roomCell_nf]
                rcases (hfp ((cc.1 : Nat) : Int) ((cc.2 : Nat) : Int)
                  (by omega) (by omega) (by omega) (by omega)).2 with
                  hw | hcon
                · exact hw
                · exact absurd hcon (by
                    intro hcon2
                    exact h1 (by rw [roomCell_nf]; exact hcon2))
              · rw [if_neg h4] at hpw
                exact hpw)
    rw [hcard] at hdrop
    exact hdrop

/-- Everything the drain-loop invariants need from a successful
`dig_corridor` call: sizes, oob flag and the worklist are preserved,
border cells other than the entrance only ever receive wall tiles (all
corridor centers are strictly interior), the entrance cell is untouched,
and the wall-like cell count drops by at least one. -/
theorem dig_corridor_invariants {w h : Int} {s : DigState} {e g : Vector}
    (hsx : s.size_x = w) (hsy : s.size_y = h) (hc : Cardinal g)
    (hsucc : (dig_corridor s e g).1 = true) :
    (dig_corridor s e g).2.size_x = w ∧
    (dig_corridor s e g).2.size_y = h ∧
    (dig_corridor s e g).2.oob = s.oob ∧
    (dig_corridor s e g).2.doorways = s.doorways ∧
    (∀ p, BorderCell w h p → p ≠ e →
      wallLike ((dig_corridor s e g).2.grid p) = true ∨
      (dig_corridor s e g).2.grid p = s.grid p) ∧
    (dig_corridor s e g).2.grid e = s.grid e ∧
    wallCount w h (dig_corridor s e g).2.grid + 1 ≤ wallCount w h s.grid := by
  obtain ⟨k, hk2, hcent, hin1, hw1, hdw, hszx, hszy, hoob, bf, bd, bfl, bu⟩ :=
    dig_corridor_succ_spec hc hsucc
  have hstrict : ∀ j : Nat, 1 ≤ j → j ≤ k →
      ¬ BorderCell w h (e + g * (j : Int)) := by
    intro j hj1 hj2 hbp
    obtain ⟨a1, a2, a3, a4⟩ := (hcent j hj1 hj2).1
    rw [hsx] at a3
    rw [hsy] at a4
    obtain ⟨_, hbd⟩ := hbp
    rcases hbd with hb1 | hb1 | hb1 | hb1 <;> omega
  refine ⟨by rw [hszx, hsx], by rw [hszy, hsy], hoob, hdw, ?_,
    dig_corridor_entrance_untouched hc, ?_⟩
  · intro p hbp hpe
    by_cases hex : ∃ j : Nat, 1 ≤ j ∧ j ≤ k ∧
        (p = e + g * (j : Int) ∨ p = e + g * (j : Int) + Vector.left g ∨
          p = e + g * (j : Int) + Vector.right g)
    · obtain ⟨j, hj1, hj2, hj3 | hj3 | hj3⟩ := hex
      · exact absurd (hj3 ▸ hbp) (hstrict j hj1 hj2)
      · left
        rw [hj3, (bfl j hj1 hj2).1]
        rfl
      · left
        rw [hj3, (bfl j hj1 hj2).2]
        rfl
    · right
      exact bu p hex
  · have hcell1 : wallLike (s.grid (e + g * ((1 : Nat) : Int))) = true :=
      (hcent 1 le_rfl (by omega)).2.1
    have hnew1 : wallLike ((dig_corridor s e g).2.grid
        (e + g * ((1 : Nat) : Int))) = false := by
      rw [bf 1 le_rfl (by omega)]
      rfl
    have hIn1 : InGrid w h (e + g * ((1 : Nat) : Int)) := by
      obtain ⟨a1, a2, a3, a4⟩ := (hcent 1 le_rfl (by omega)).1
      rw [hsx] at a3
      rw [hsy] at a4
      exact ⟨by omega, by omega, by omega, by omega⟩
    have hdrop := wallCount_drop
      ({e + g * ((1 : Nat) : Int)} : Finset Vector)
      (by
        intro p hp
        rw [Finset.mem_singleton] at hp
        subst hp
        exact mem_cellFinset.mpr hIn1)
      (by
        intro p hp
        rw [Finset.mem_singleton] at hp
        subst hp
        exact hcell1)
      (by
        intro p hp
        rw [Finset.mem_singleton] at hp
        subst hp
        exact hnew1)
      (by
        intro p hpin hpw
        by_cases hex : ∃ j : Nat, 1 ≤ j ∧ j ≤ k ∧
            (p = e + g * (j : Int) ∨ p = e + g * (j : Int) + Vector.left g ∨
              p = e + g * (j : Int) + Vector.right g)
        · obtain ⟨j, hj1, hj2, hj3 | hj3 | hj3⟩ := hex
          · by_cases hjk : j < k
            · rw [hj3, bf j hj1 hjk] at hpw
              exact absurd hpw (by decide)
            · have hjk2 : j = k := by omega
              rw [hj3, hjk2, bd] at hpw
              exact absurd hpw (by decide)
          · rw [hj3]
            exact (hcent j hj1 hj2).2.2.2.1
          · rw [hj3]
            exact (hcent j hj1 hj2).2.2.2.2
        · rw [bu p hex] at hpw
          exact hpw)
    rw [Finset.card_singleton] at hdrop
    exact hdrop

/-- Wall-like tiles are neither floor nor door. -/
theorem wallLike_not_open {t : Tile} (h : wallLike t = true) :
    t ≠ Tile.floor ∧ t ≠ Tile.door := by
  cases t <;> simp_all [wallLike]

/-- Writing a non-wall-like tile never increases the wall count. -/
theorem wallCount_le_of_nonwall {w h : Int} (g : Vector → Tile) (v : Vector)
    {t : Tile} (ht : wallLike t = false) :
    wallCount w h (setTile g v t) ≤ wallCount w h g := by
  apply Finset.card_le_card
  intro p hp
  rw [Finset.mem_filter] at hp ⊢
  obtain ⟨hp1, hp2⟩ := hp
  refine ⟨hp1, ?_⟩
  rcases eq_or_ne p v with rfl | hne
  · rw [setTile_same] at hp2
    rw [hp2] at ht
    simp at ht
  · rw [setTile_ne g t hne] at hp2
    exact hp2

/-- One drain-loop iteration from a nonempty worklist: the worklist
invariant is preserved, the termination measure strictly decreases, the
border-grid invariant is preserved, and (for in-grid doorway locations)
the location invariant and oob flag are preserved. -/
theorem dig_iter_spec (w h : Int) (s : DigState) (hne : s.doorways ≠ [])
    (hcore : StateCore w h s) :
    StateCore w h (dig_iter s) ∧
    loopMeasure w h (dig_iter s) < loopMeasure w h s ∧
    (GridOK w h s.grid → GridOK w h (dig_iter s).grid) ∧
    (LocOK w h s → LocOK w h (dig_iter s)) ∧
    (LocOK w h s → (dig_iter s).oob = s.oob) := by
  obtain ⟨hsx, hsy, hdws⟩ := hcore
  have hlen1 : 1 ≤ s.doorways.length := List.length_pos.mpr hne
  unfold dig_iter
  rcases h1 : rand_range 0 ((s.doorways.length : Int) - 1) s with ⟨which, s1⟩
  have e1 : s1.grid = s.grid ∧ s1.doorways = s.doorways ∧ s1.oob = s.oob ∧
      s1.size_x = s.size_x ∧ s1.size_y = s.size_y := by
    rw [show s1 = (rand_range 0 ((s.doorways.length : Int) - 1) s).2 from by
      rw [h1]]
    exact ⟨rfl, rfl, rfl, rfl, rfl⟩
  have hwb := rand_range_bounds
    (show (0 : Int) ≤ (s.doorways.length : Int) - 1 from by
      have hcast : (1 : Int) ≤ (s.doorways.length : Int) := by
        exact_mod_cast hlen1
      omega) s
  rw [h1] at hwb
  simp only [] at hwb
  have hwlt : which.toNat < s1.doorways.length := by
    rw [e1.2.1]
    omega
  simp only [h1]
  set d := s1.doorways.getD which.toNat ⟨⟨0, 0⟩, ⟨0, 0⟩, false⟩ with hdd
  have hdmem : d ∈ s.doorways := by
    rw [← e1.2.1]
    rw [hdd, List.getD_eq_getElem s1.doorways _ hwlt]
    exact List.getElem_mem hwlt
  obtain ⟨hdc, hdho, hdbord⟩ := hdws d hdmem
  set s2 := ({ s1 with doorways := s1.doorways.eraseIdx which.toNat } :
    DigState) with hs2def
  have hs2g : s2.grid = s.grid := e1.1
  have hs2x : s2.size_x = w := e1.2.2.2.1.trans hsx
  have hs2y : s2.size_y = h := e1.2.2.2.2.trans hsy
  have hs2oob : s2.oob = s.oob := e1.2.2.1
  have hsub2 : ∀ x ∈ s2.doorways, x ∈ s.doorways := by
    intro x hx
    rw [← e1.2.1]
    exact List.eraseIdx_subset s1.doorways which.toNat hx
  have hlen2 : s2.doorways.length = s.doorways.length - 1 := by
    rw [show s2.doorways = s1.doorways.eraseIdx which.toNat from rfl,
      List.length_eraseIdx_of_lt hwlt, e1.2.1]
  rcases h2 : dig_random s2 d.location d.heading with ⟨succ, s3⟩
  simp only [h2]
  unfold dig_random at h2
  cases succ
  · -- all five tries failed: the pop is the only change
    have hfail := dig_random_go_fail hdc max_tries s2 (by rw [h2])
    rw [h2] at hfail
    simp only [] at hfail
    obtain ⟨f1, f2, f3, f4, f5⟩ := hfail
    have hg3 : s3.grid = s.grid := by rw [f1]; exact hs2g
    have hl3 : s3.doorways.length = s.doorways.length - 1 := by
      rw [f2]; exact hlen2
    rw [if_neg (show ¬ false = true from by simp)]
    refine ⟨⟨?_, ?_, ?_⟩, ?_, ?_, ?_, ?_⟩
    · rw [f4]; exact hs2x
    · rw [f5]; exact hs2y
    · intro d2 hd2
      rw [f2] at hd2
      exact hdws d2 (hsub2 d2 hd2)
    · show s3.doorways.length + wallCount w h s3.grid <
        s.doorways.length + wallCount w h s.grid
      rw [hl3, hg3]
      omega
    · intro hg
      show GridOK w h s3.grid
      rw [hg3]
      exact hg
    · intro hloc d2 hd2
      rw [f2] at hd2
      exact hloc d2 (hsub2 d2 hd2)
    · intro _
      rw [f3]
      exact hs2oob
  · -- one generator succeeded
    rw [if_pos rfl, if_pos hdho]
    have hsucc2 : (dig_random_go d.location d.heading max_tries s2).1 =
        true := by rw [h2]
    obtain ⟨s4, p1, p2, p3, p4, p5, hcase⟩ :=
      dig_random_go_succ hdc max_tries s2 hsucc2
    have hs3eq : s3 = (dig_random_go d.location d.heading max_tries s2).2 := by
      rw [h2]
    have hs4x : s4.size_x = w := by rw [p4]; exact hs2x
    have hs4y : s4.size_y = h := by rw [p5]; exact hs2y
    have hs4g : s4.grid = s.grid := by rw [p1]; exact hs2g
    have hs4oob : s4.oob = s.oob := by rw [p3]; exact hs2oob
    rcases hcase with ⟨hgen, hval⟩ | ⟨hgen, hval⟩
    · -- the successful call was a room
      have hs3val : s3 = (dig_room s4 d.location d.heading).2 := by
        rw [hs3eq, hval]
      obtain ⟨rx, ry, roob, ⟨ds, hds, hds3, hdsall⟩, hbord, hent, hwc⟩ :=
        dig_room_invariants hs4x hs4y hdc hgen
      refine ⟨⟨?_, ?_, ?_⟩, ?_, ?_, ?_, ?_⟩
      · rw [door_tile_size_x, hs3val, rx]
      · rw [door_tile_size_y, hs3val, ry]
      · intro d2 hd2
        rw [door_tile_doorways, hs3val, hds, List.mem_append] at hd2
        rcases hd2 with hd2 | hd2
        · rw [p2] at hd2
          exact hdws d2 (hsub2 d2 hd2)
        · obtain ⟨c1x, c2x, c3x, c4x⟩ := hdsall d2 hd2
          exact ⟨c1x, c2x, fun _ => Or.inr c4x⟩
      · show (door_tile s3 d.location).doorways.length +
            wallCount w h (door_tile s3 d.location).grid <
          s.doorways.length + wallCount w h s.grid
        rw [door_tile_doorways, door_tile_grid]
        have hl : s3.doorways.length = s.doorways.length - 1 + 3 := by
          rw [hs3val, hds, List.length_append, p2, hlen2, hds3]
        have hwc4 : wallCount w h (setTile s3.grid d.location Tile.door) ≤
            wallCount w h s3.grid := wallCount_le_of_nonwall _ _ rfl
        have hwc3 := hwc
        rw [hs4g, ← hs3val] at hwc3
        omega
      · intro hg p hbp
        rw [door_tile_grid, setTile_eval]
        by_cases hpd : p = d.location
        · rw [if_pos hpd]
          refine ⟨by decide, fun _ => ?_⟩
          rcases hdbord (hpd ▸ hbp) with hentd | hng
          · rw [hpd, hentd]
          · have hff := room_nogrow_fail hs4x hs4y hdc (hpd ▸ hbp) hng
            simp [hgen] at hff
        · rw [if_neg hpd, hs3val]
          rcases hbord p hbp hpd with hw | hunch
          · obtain ⟨hnf, hnd⟩ := wallLike_not_open hw
            exact ⟨hnf, fun hdd2 => absurd hdd2 hnd⟩
          · rw [hunch, hs4g]
            exact hg p hbp
      · intro hloc d2 hd2
        rw [door_tile_doorways, hs3val, hds, List.mem_append] at hd2
        rcases hd2 with hd2 | hd2
        · rw [p2] at hd2
          exact hloc d2 (hsub2 d2 hd2)
        · exact (hdsall d2 hd2).2.2.1
      · intro hloc
        have hinb : is_in_bounds_or_border s3 d.location := by
          obtain ⟨l1, l2, l3, l4⟩ := hloc d hdmem
          refine ⟨l1, l2, ?_, ?_⟩
          · rw [hs3val, rx]; exact l3
          · rw [hs3val, ry]; exact l4
        rw [show door_tile s3 d.location = writeTile s3 d.location Tile.door
          from rfl, writeTile_oob_of_inb _ hinb, hs3val, roob, hs4oob]
    · -- the successful call was a corridor
      have hs3val : s3 = (dig_corridor s4 d.location d.heading).2 := by
        rw [hs3eq, hval]
      obtain ⟨rx, ry, roob, rdw, hbord, hent, hwc⟩ :=
        dig_corridor_invariants hs4x hs4y hdc hgen
      refine ⟨⟨?_, ?_, ?_⟩, ?_, ?_, ?_, ?_⟩
      · rw [door_tile_size_x, hs3val, rx]
      · rw [door_tile_size_y, hs3val, ry]
      · intro d2 hd2
        rw [door_tile_doorways, hs3val, rdw, p2] at hd2
        exact hdws d2 (hsub2 d2 hd2)
      · show (door_tile s3 d.location).doorways.length +
            wallCount w h (door_tile s3 d.location).grid <
          s.doorways.length + wallCount w h s.grid
        rw [door_tile_doorways, door_tile_grid]
        have hl : s3.doorways.length = s.doorways.length - 1 := by
          rw [hs3val, rdw, p2, hlen2]
        have hwc4 : wallCount w h (setTile s3.grid d.location Tile.door) ≤
            wallCount w h s3.grid := wallCount_le_of_nonwall _ _ rfl
        have hwc3 := hwc
        rw [hs4g, ← hs3val] at hwc3
        omega
      · intro hg p hbp
        rw [door_tile_grid, setTile_eval]
        by_cases hpd : p = d.location
        · rw [if_pos hpd]
          refine ⟨by decide, fun _ => ?_⟩
          rcases hdbord (hpd ▸ hbp) with hentd | hng
          · rw [hpd, hentd]
          · have hff := corridor_nogrow_fail hs4x hs4y hdc (hpd ▸ hbp) hng
            simp [hgen] at hff
        · rw [if_neg hpd, hs3val]
          rcases hbord p hbp hpd with hw | hunch
          · obtain ⟨hnf, hnd⟩ := wallLike_not_open hw
            exact ⟨hnf, fun hdd2 => absurd hdd2 hnd⟩
          · rw [hunch, hs4g]
            exact hg p hbp
      · intro hloc d2 hd2
        rw [door_tile_doorways, hs3val, rdw, p2] at hd2
        exact hloc d2 (hsub2 d2 hd2)
      · intro hloc
        have hinb : is_in_bounds_or_border s3 d.location := by
          obtain ⟨l1, l2, l3, l4⟩ := hloc d hdmem
          refine ⟨l1, l2, ?_, ?_⟩
          · rw [hs3val, rx]; exact l3
          · rw [hs3val, ry]; exact l4
        rw [show door_tile s3 d.location = writeTile s3 d.location Tile.door
          from rfl, writeTile_oob_of_inb _ hinb, hs3val, roob, hs4oob]

/-- The drain loop does nothing on an empty worklist. -/
theorem dig_drain_empty : ∀ (n : Nat) (s : DigState), s.doorways = [] →
    dig_drain n s = s := by
  intro n s hdw
  cases n
  · rfl
  · unfold dig_drain
    rw [if_pos hdw]

/-- Fueled drain loop: invariants are preserved for any fuel, and fuel at
least the termination measure empties the worklist. -/
theorem dig_drain_spec (w h : Int) : ∀ (n : Nat) (s : DigState),
    StateCore w h s →
    StateCore w h (dig_drain n s) ∧
    (GridOK w h s.grid → GridOK w h (dig_drain n s).grid) ∧
    (LocOK w h s → LocOK w h (dig_drain n s) ∧
      (dig_drain n s).oob = s.oob) ∧
    (loopMeasure w h s ≤ n → (dig_drain n s).doorways = []) := by
  intro n
  induction n with
  | zero =>
    intro s hcore
    refine ⟨hcore, fun hg => hg, fun hl => ⟨hl, rfl⟩, fun hm => ?_⟩
    have hlen : s.doorways.length = 0 := by
      unfold loopMeasure at hm
      omega
    exact List.length_eq_zero.mp hlen
  | succ n ih =>
    intro s hcore
    by_cases hdw : s.doorways = []
    · unfold dig_drain
      rw [if_pos hdw]
      exact ⟨hcore, fun hg => hg, fun hl => ⟨hl, rfl⟩, fun _ => hdw⟩
    · unfold dig_drain
      rw [if_neg hdw]
      obtain ⟨hc2, hm2, hg2, hl2, ho2⟩ := dig_iter_spec w h s hdw hcore
      obtain ⟨ic, ig, il, im⟩ := ih (dig_iter s) hc2
      refine ⟨ic, fun hg => ig (hg2 hg), fun hl => ?_, fun hm => ?_⟩
      · obtain ⟨la, lb⟩ := il (hl2 hl)
        exact ⟨la, by rw [lb, ho2 hl]⟩
      · exact im (by omega)

/-- Fields of the seeded state. -/
theorem dig_seed_fields (s : DigState) :
    (dig_seed s).size_x = s.size_x ∧ (dig_seed s).size_y = s.size_y ∧
    (dig_seed s).doorways = s.doorways ++
      [⟨⟨s.size_x / 2, s.size_y - 1⟩, ⟨0, -1⟩, true⟩] := by
  unfold dig_seed
  refine ⟨?_, ?_, ?_⟩ <;> simp

/-- The seeded initial state satisfies the worklist invariant. -/
theorem dig_seed_core (w h : Int) (rng : Nat → Nat) :
    StateCore w h (dig_seed (init_state w h rng)) := by
  obtain ⟨f1, f2, f3⟩ := dig_seed_fields (init_state w h rng)
  refine ⟨by rw [f1]; rfl, by rw [f2]; rfl, ?_⟩
  intro dd hdd
  rw [f3] at hdd
  simp only [init_state, List.nil_append, List.mem_singleton] at hdd
  subst hdd
  exact ⟨Or.inl rfl, rfl, fun _ => Or.inl rfl⟩

/-- The seeded initial state satisfies the border-grid invariant. -/
theorem dig_seed_gridOK (w h : Int) (rng : Nat → Nat) :
    GridOK w h (dig_seed (init_state w h rng)).grid := by
  intro p hbp
  simp only [dig_seed, fill_tile, door_tile, writeTile_grid,
    push_doorway_grid]
  rw [setTile_eval, setTile_eval, setTile_eval]
  split_ifs with hc1 hc2 hc3
  · exact ⟨by decide, fun hcon => absurd hcon (by decide)⟩
  · exact ⟨by decide, fun hcon => absurd hcon (by decide)⟩
  · exact ⟨by decide, fun _ => hc3⟩
  · exact ⟨(by decide : Tile.unknown ≠ Tile.floor),
      fun hcon => absurd hcon (by decide : Tile.unknown ≠ Tile.door)⟩

/-- The seed doorway lies in the grid (for a nonempty grid). -/
theorem dig_seed_locOK (w h : Int) (rng : Nat → Nat) (hw : 1 ≤ w)
    (hh : 1 ≤ h) : LocOK w h (dig_seed (init_state w h rng)) := by
  obtain ⟨f1, f2, f3⟩ := dig_seed_fields (init_state w h rng)
  intro dd hdd
  rw [f3] at hdd
  simp only [init_state, List.nil_append, List.mem_singleton] at hdd
  subst hdd
  refine ⟨?_, ?_, ?_, ?_⟩ <;> simp only [] <;> omega

/-- Seeding a grid at least 3 wide and 1 high makes no out-of-bounds
access. -/
theorem dig_seed_oob (w h : Int) (rng : Nat → Nat) (hw : 3 ≤ w)
    (hh : 1 ≤ h) : (dig_seed (init_state w h rng)).oob = false := by
  unfold dig_seed
  simp only [fill_tile, door_tile]
  rw [writeTile_oob_of_inb, writeTile_oob_of_inb, writeTile_oob_of_inb]
  · rfl
  · refine ⟨?_, ?_, ?_, ?_⟩ <;>
      simp only [init_state, push_doorway_size_x, push_doorway_size_y,
        Vector.add_def, Vector.sub_def] <;> omega
  · refine ⟨?_, ?_, ?_, ?_⟩ <;>
      simp only [init_state, push_doorway_size_x, push_doorway_size_y,
        writeTile_size_x, writeTile_size_y, Vector.add_def,
        Vector.sub_def] <;> omega
  · refine ⟨?_, ?_, ?_, ?_⟩ <;>
      simp only [init_state, push_doorway_size_x, push_doorway_size_y,
        writeTile_size_x, writeTile_size_y, Vector.add_def,
        Vector.sub_def] <;> omega

/-- C7: for every grid size and every random sequence the generation run
terminates with the Worklist drained: the final state of `dig_loop` has an
empty doorway list (the fuel `drainFuel` bounds the termination measure
`doorway count + wall-like cell count`, which strictly decreases on every
drain iteration), and the drained state is a fixed point of the drain
loop, i.e. the run has reached the Done state. -/
theorem C7_termination (w h : Int) (rng : Nat → Nat) :
    (dig_loop (init_state w h rng)).doorways = [] ∧
    ∀ m : Nat, dig_drain m (dig_loop (init_state w h rng)) =
      dig_loop (init_state w h rng) := by
  have hcore := dig_seed_core w h rng
  have hfuel : loopMeasure w h (dig_seed (init_state w h rng)) ≤
      drainFuel (init_state w h rng) := by
    unfold loopMeasure drainFuel
    obtain ⟨f1, f2, f3⟩ := dig_seed_fields (init_state w h rng)
    rw [f3]
    have hwc := wallCount_le w h (dig_seed (init_state w h rng)).grid
    show ([] ++ [(⟨⟨w / 2, h - 1⟩, ⟨0, -1⟩, true⟩ : Doorway)]).length +
        wallCount w h (dig_seed (init_state w h rng)).grid ≤
      w.toNat * h.toNat + 1
    simp only [List.nil_append, List.length_singleton]
    omega
  have hdr := dig_drain_spec w h (drainFuel (init_state w h rng))
    (dig_seed (init_state w h rng)) hcore
  have hempty := hdr.2.2.2 hfuel
  exact ⟨hempty, fun m => dig_drain_empty m _ hempty⟩

/-- C1 (amended): in every state of the drain loop, and in the final grid
of a whole run, no in-grid border cell is `Floor`, and an in-grid border
cell is `Door` only if it is the initial entrance cell
`(size_x/2, size_y-1)`; border cells otherwise hold only `Unknown`, `Wall`
or `Permawall`. -/
theorem C1_amended (w h : Int) (rng : Nat → Nat) (n : Nat) (p : Vector)
    (hb : BorderCell w h p) :
    ((dig_drain n (dig_seed (init_state w h rng))).grid p ≠ Tile.floor ∧
      ((dig_drain n (dig_seed (init_state w h rng))).grid p = Tile.door →
        p = entranceCell w h)) ∧
    ((dig_loop (init_state w h rng)).grid p ≠ Tile.floor ∧
      ((dig_loop (init_state w h rng)).grid p = Tile.door →
        p = entranceCell w h)) := by
  have hcore := dig_seed_core w h rng
  have hgok := dig_seed_gridOK w h rng
  constructor
  · exact ((dig_drain_spec w h n _ hcore).2.1 hgok) p hb
  · exact ((dig_drain_spec w h (drainFuel (init_state w h rng)) _
      hcore).2.1 hgok) p hb

/-- Witness for the amended C1 at the border cell `(0,0)` of a 20×20 run. -/
theorem C1_amended_witness :
    BorderCell 20 20 ⟨0, 0⟩ ∧
    (((dig_drain 1 (dig_seed (init_state 20 20 zstream))).grid ⟨0, 0⟩ ≠
        Tile.floor ∧
      ((dig_drain 1 (dig_seed (init_state 20 20 zstream))).grid ⟨0, 0⟩ =
          Tile.door → (⟨0, 0⟩ : Vector) = entranceCell 20 20)) ∧
     ((dig_loop (init_state 20 20 zstream)).grid ⟨0, 0⟩ ≠ Tile.floor ∧
      ((dig_loop (init_state 20 20 zstream)).grid ⟨0, 0⟩ = Tile.door →
        (⟨0, 0⟩ : Vector) = entranceCell 20 20))) :=
  ⟨by decide, C1_amended 20 20 zstream 1 ⟨0, 0⟩ (by decide)⟩

/-- C6 counterexample: correct use of the public operations with positive
width and height does not prevent out-of-bounds accesses — on a 1×1 grid
the seeding step itself writes the entrance's lateral neighbor
`(1, 0)`, which is outside `[0,1)×[0,1)`, before any bounds check. -/
theorem C6_counterexample :
    (dig_seed (init_state 1 1 zstream)).oob = true := by decide

/-- C6 (amended): for grids at least 3 wide and 1 high, no grid access of
the whole run (seeding and any number of drain iterations, in particular
the complete `dig_loop` run) ever targets a cell outside
`[0,width)×[0,height)`. -/
theorem C6_amended (w h : Int) (rng : Nat → Nat) (n : Nat) (hw : 3 ≤ w)
    (hh : 1 ≤ h) :
    (dig_drain n (dig_seed (init_state w h rng))).oob = false ∧
    (dig_loop (init_state w h rng)).oob = false := by
  have hcore := dig_seed_core w h rng
  have hloc := dig_seed_locOK w h rng (by omega) hh
  have hoobseed := dig_seed_oob w h rng hw hh
  constructor
  · rw [((dig_drain_spec w h n _ hcore).2.2.1 hloc).2, hoobseed]
  · show (dig_drain (drainFuel (init_state w h rng))
      (dig_seed (init_state w h rng))).oob = false
    rw [((dig_drain_spec w h _ _ hcore).2.2.1 hloc).2, hoobseed]

/-- Witness for the amended C6 on a 20×20 run. -/
theorem C6_amended_witness :
    (3 : Int) ≤ 20 ∧ (1 : Int) ≤ 20 ∧
    ((dig_drain 1 (dig_seed (init_state 20 20 zstream))).oob = false ∧
      (dig_loop (init_state 20 20 zstream)).oob = false) :=
  ⟨by decide, by decide, C6_amended 20 20 zstream 1 (by decide) (by decide)⟩

end Digger
